import Mathlib

/-!
Verification development for the crawl-and-extract core of the scraper
repository (`scraper/run.py` and `scraper/utils/extract.py`).

Strings are modelled as `List Char` (`Str`).  Numeric prices are modelled as
exact rationals `ℚ`; every numeric value appearing in the claims (250.0,
1234.50, 100) is exactly representable as an IEEE double, so equalities
proved over `ℚ` agree with the Python `float` behaviour on these inputs.

External collaborators (the lxml HTML parser behind BeautifulSoup, the JSON
parser `json.loads`, the network fetchers, `tldextract.extract`) are modelled
as boundaries: the DOM produced by the HTML parser is the `Node` input, the
JSON parser is a `Str → Option Json` parameter (`none` = parse error), the
fetchers are `Str → Option Node` parameters (`none` = failure / empty page),
and the registrable-domain function is a `Str → Str` parameter.
-/

/-- Python strings are modelled as lists of characters. -/
abbrev Str := List Char

/-- ASCII lowercasing of one character (`str.lower` restricted to ASCII;
identity on everything else, which matches Python on all characters appearing
in the sources: ASCII letters, digits, punctuation, `£` and Arabic letters). -/
def lowerChar (c : Char) : Char :=
  if 65 ≤ c.toNat ∧ c.toNat ≤ 90 then Char.ofNat (c.toNat + 32) else c

/-- `str.lower`. -/
def pyLower (s : Str) : Str := s.map lowerChar

/-- Python `str.isspace`-style whitespace recognised by `\s`, `strip()`
(ASCII part: space, tab, newline, carriage return, vertical tab, form feed). -/
def isPySpace (c : Char) : Bool :=
  c = ' ' ∨ c = '\t' ∨ c = '\n' ∨ c = '\x0d' ∨ c = '\x0b' ∨ c = '\x0c'

/-- ASCII decimal digit (the `\d` class on the inputs in scope). -/
def isAsciiDigit (c : Char) : Bool := '0' ≤ c ∧ c ≤ '9'

/-- `str.strip()` with no argument: strip whitespace from both ends. -/
def pyStrip (s : Str) : Str :=
  ((s.dropWhile isPySpace).reverse.dropWhile isPySpace).reverse

/-- `str.rstrip("/")`: strip trailing slashes. -/
def rstripSlash (s : Str) : Str :=
  (s.reverse.dropWhile (fun c => decide (c = '/'))).reverse

/-- Does `n` occur as a prefix of `h`?  (`str.startswith`). -/
def strAtStart : Str → Str → Bool
  | [], _ => true
  | _ :: _, [] => false
  | a :: as, b :: bs => a = b && strAtStart as bs

/-- Python substring containment `n in h`. -/
def strHasSub (n : Str) : Str → Bool
  | [] => strAtStart n []
  | c :: t => strAtStart n (c :: t) || strHasSub n t

/-- Python `str.endswith`. -/
def strEndsWith (n h : Str) : Bool := strAtStart n.reverse h.reverse

/-- Python truthiness-based `a or b` for strings. -/
def pyOrStr (a b : Str) : Str := if a = [] then b else a

theorem strAtStart_iff (n h : Str) :
    strAtStart n h = true ↔ ∃ post, h = n ++ post := by
  induction n generalizing h with
  | nil => simp [strAtStart]
  | cons a as ih =>
    cases h with
    | nil => simp [strAtStart]
    | cons b bs =>
      simp only [strAtStart, Bool.and_eq_true, decide_eq_true_eq, ih]
      constructor
      · rintro ⟨rfl, post, rfl⟩; exact ⟨post, rfl⟩
      · rintro ⟨post, h⟩
        injection h with h1 h2
        exact ⟨h1.symm, post, h2⟩

theorem strHasSub_iff (n h : Str) :
    strHasSub n h = true ↔ ∃ pre post, h = pre ++ n ++ post := by
  induction h with
  | nil =>
    simp only [strHasSub, strAtStart_iff]
    constructor
    · rintro ⟨post, e⟩; exact ⟨[], post, by simpa using e⟩
    · rintro ⟨pre, post, e⟩
      have : pre = [] ∧ n ++ post = [] := by
        constructor
        · cases pre with
          | nil => rfl
          | cons x xs => simp at e
        · cases pre with
          | nil => simpa using e.symm
          | cons x xs => simp at e
      exact ⟨post, by simp [this.2.symm]⟩
  | cons c t ih =>
    simp only [strHasSub, Bool.or_eq_true, strAtStart_iff, ih]
    constructor
    · rintro (⟨post, e⟩ | ⟨pre, post, e⟩)
      · exact ⟨[], post, by simpa using e⟩
      · exact ⟨c :: pre, post, by simp [e]⟩
    · rintro ⟨pre, post, e⟩
      cases pre with
      | nil => exact Or.inl ⟨post, by simpa using e⟩
      | cons x xs =>
        injection e with e1 e2
        exact Or.inr ⟨xs, post, e2⟩

/-! ## Model of `urllib.parse` (CPython) for the pieces the code uses.

`urlsplit` (CPython 3.11): left-strip C0-control/space characters, remove
tab/CR/LF, detect a scheme (first `:` at a positive index, the part before it
starting with an ASCII letter and consisting of scheme characters), split an
authority introduced by `//`, then split off fragment and query.  A netloc
containing square brackets makes CPython validate it as a bracketed IPv6 /
IPvFuture host and raise `ValueError` otherwise; the model treats every
bracketed netloc as the error case (no claim in scope involves a URL with a
valid bracketed host).  The non-ASCII netloc NFKC check of `_checknetloc` is
not modelled; all inputs in scope are ASCII.  `urlparse` additionally splits
`;params` off the last path segment. -/

structure UrlParts where
  scheme : Str
  netloc : Str
  path : Str
  params : Str
  query : Str
  fragment : Str
deriving Repr, DecidableEq

/-- Characters CPython removes anywhere in the URL (`_UNSAFE_URL_BYTES_TO_REMOVE`). -/
def removeUnsafe (s : Str) : Str :=
  s.filter (fun c => decide ¬(c = '\t' ∨ c = '\x0d' ∨ c = '\n'))

/-- `_WHATWG_C0_CONTROL_OR_SPACE` left strip. -/
def lstripC0 (s : Str) : Str := s.dropWhile (fun c => decide (c.toNat ≤ 32))

/-- Valid scheme characters (`scheme_chars`). -/
def schemeChar (c : Char) : Bool :=
  ('a' ≤ c ∧ c ≤ 'z') ∨ ('A' ≤ c ∧ c ≤ 'Z') ∨ ('0' ≤ c ∧ c ≤ '9') ∨
    c = '+' ∨ c = '-' ∨ c = '.'

/-- An ASCII letter. -/
def asciiAlphaChar (c : Char) : Bool :=
  ('a' ≤ c ∧ c ≤ 'z') ∨ ('A' ≤ c ∧ c ≤ 'Z')

/-- First character is an ASCII letter (`url[0].isascii() and url[0].isalpha()`). -/
def headAsciiAlpha : Str → Bool
  | [] => false
  | c :: _ => asciiAlphaChar c

/-- `url.split(ch, 1)`: the part before the first `ch` and the part after it
(the whole string and `""` when `ch` is absent). -/
def cutAt (ch : Char) (s : Str) : Str × Str :=
  (s.takeWhile (fun c => decide (c ≠ ch)), (s.dropWhile (fun c => decide (c ≠ ch))).drop 1)

/-- Scheme detection step of `urlsplit` (default scheme `dflt`). -/
def schemeSplit (dflt u : Str) : Str × Str :=
  let pre := u.takeWhile (fun c => decide (c ≠ ':'))
  if pre.length < u.length ∧ pre ≠ [] ∧ headAsciiAlpha u = true ∧ pre.all schemeChar then
    (pyLower pre, u.drop (pre.length + 1))
  else (dflt, u)

/-- Not one of the authority-terminating delimiters `/?#` (`_splitnetloc`). -/
def notNetlocDelim (c : Char) : Bool := decide ¬(c = '/' ∨ c = '?' ∨ c = '#')

/-- `urlsplit`; `.error` models the `ValueError` raised for bracketed netlocs. -/
def urlsplitE (dflt u0 : Str) : Except Unit UrlParts :=
  let u1 := removeUnsafe (lstripC0 u0)
  let (scheme, u2) := schemeSplit dflt u1
  let hasNetloc := strAtStart ['/', '/'] u2
  let netloc := if hasNetloc then (u2.drop 2).takeWhile notNetlocDelim else []
  let u3 := if hasNetloc then (u2.drop 2).dropWhile notNetlocDelim else u2
  if '[' ∈ netloc ∨ ']' ∈ netloc then .error ()
  else
    let (u4, fragment) := cutAt '#' u3
    let (path, query) := cutAt '?' u4
    .ok ⟨scheme, netloc, path, [], query, fragment⟩

/-- `_splitparams`: split `;params` off the last path segment. -/
def splitparams (path : Str) : Str × Str :=
  if '/' ∈ path then
    let revPath := path.reverse
    let lastSeg := (revPath.takeWhile (fun c => decide (c ≠ '/'))).reverse
    let before := (revPath.dropWhile (fun c => decide (c ≠ '/'))).reverse
    if ';' ∈ lastSeg then
      let (p, par) := cutAt ';' lastSeg
      (before ++ p, par)
    else (path, [])
  else
    if ';' ∈ path then cutAt ';' path else (path, [])

/-- `uses_params` (CPython): schemes whose path may carry `;params`. -/
def uses_params : List Str :=
  [[], "ftp".data, "hdl".data, "prospero".data, "http".data, "imap".data,
   "https".data, "shttp".data, "rtsp".data, "rtspu".data, "sip".data,
   "sips".data, "mms".data, "sftp".data, "tel".data]

/-- `urlparse(url, dflt)`. -/
def urlparseE (dflt u : Str) : Except Unit UrlParts :=
  match urlsplitE dflt u with
  | .error e => .error e
  | .ok P =>
    if P.scheme ∈ uses_params ∧ ';' ∈ P.path then
      let (p, par) := splitparams P.path
      .ok { P with path := p, params := par }
    else .ok P

/-- `canon_url` (run.py): `f"{p.scheme}://{p.netloc}{p.path}".rstrip("/")`,
falling back to `(u or "").strip().rstrip("/")` when parsing raises. -/
def canon_url (u : Str) : Str :=
  match urlparseE [] u with
  | .ok P => rstripSlash (P.scheme ++ [':', '/', '/'] ++ P.netloc ++ P.path)
  | .error _ => rstripSlash (pyStrip u)

/-- `uses_relative` (CPython). -/
def uses_relative : List Str :=
  [[], "ftp".data, "http".data, "gopher".data, "nntp".data, "imap".data,
   "wais".data, "file".data, "https".data, "shttp".data, "mms".data,
   "prospero".data, "rtsp".data, "rtspu".data, "sftp".data, "svn".data,
   "svn+ssh".data, "ws".data, "wss".data]

/-- `uses_netloc` (CPython). -/
def uses_netloc : List Str :=
  [[], "ftp".data, "http".data, "gopher".data, "nntp".data, "telnet".data,
   "imap".data, "wais".data, "file".data, "mms".data, "https".data,
   "shttp".data, "snews".data, "prospero".data, "rtsp".data, "rtspu".data,
   "rsync".data, "svn".data, "svn+ssh".data, "sftp".data, "nfs".data,
   "git".data, "git+ssh".data, "ws".data, "wss".data, "itms-services".data]

/-- `urlunsplit`. -/
def urlunsplit (scheme netloc path query fragment : Str) : Str :=
  let url :=
    if netloc ≠ [] ∨ (path ≠ [] ∧ strAtStart ['/', '/'] path) then
      let p := if path ≠ [] ∧ ¬ strAtStart ['/'] path then '/' :: path else path
      ['/', '/'] ++ netloc ++ p
    else path
  let url := if scheme ≠ [] then scheme ++ [':'] ++ url else url
  let url := if query ≠ [] then url ++ ['?'] ++ query else url
  if fragment ≠ [] then url ++ ['#'] ++ fragment else url

/-- `urlunparse`. -/
def urlunparse (P : UrlParts) : Str :=
  let path := if P.params ≠ [] then P.path ++ [';'] ++ P.params else P.path
  urlunsplit P.scheme P.netloc path P.query P.fragment

/-- `str.split(sep)` for a one-character separator (keeps empty pieces). -/
def pySplitOn (sep : Char) : Str → List Str
  | [] => [[]]
  | c :: t =>
    if c = sep then [] :: pySplitOn sep t
    else
      match pySplitOn sep t with
      | [] => [[c]]
      | p :: ps => (c :: p) :: ps

/-- `sep.join` for a one-character separator. -/
def pyJoinOn (sep : Char) : List Str → Str
  | [] => []
  | [p] => p
  | p :: ps => p ++ sep :: pyJoinOn sep ps

/-- `segments[1:-1] = filter(None, segments[1:-1])`: drop empty segments,
keeping the first and last element untouched. -/
def filterMidEmpty (segs : List Str) : List Str :=
  match segs with
  | [] => []
  | [x] => [x]
  | x :: rest => x :: (rest.dropLast.filter (fun s => decide (s ≠ []))) ++ [rest.getLastD []]

/-- Dot-segment resolution loop of `urljoin`. -/
def resolveSegs (segs : List Str) : List Str :=
  segs.foldl
    (fun acc seg =>
      if seg = ['.', '.'] then acc.dropLast
      else if seg = ['.'] then acc
      else acc ++ [seg]) []

/-- `urljoin(base, url)` (CPython).  CPython raises `ValueError` on URLs with
bracketed netlocs; the model returns `url` in that case (no claim involves
such inputs). -/
def urljoin (base url : Str) : Str :=
  if base = [] then url
  else if url = [] then base
  else
    match urlparseE [] base with
    | .error _ => url
    | .ok B =>
      match urlparseE B.scheme url with
      | .error _ => url
      | .ok U =>
        if ¬(U.scheme = B.scheme ∧ U.scheme ∈ uses_relative) then url
        else if U.scheme ∈ uses_netloc ∧ U.netloc ≠ [] then urlunparse U
        else
          let netloc := if U.scheme ∈ uses_netloc then B.netloc else U.netloc
          if U.path = [] ∧ U.params = [] then
            let query := if U.query = [] then B.query else U.query
            urlunparse ⟨U.scheme, netloc, B.path, B.params, query, U.fragment⟩
          else
            let baseParts0 := pySplitOn '/' B.path
            let baseParts :=
              if baseParts0.getLastD [] ≠ [] then baseParts0.dropLast else baseParts0
            let segments :=
              if strAtStart ['/'] U.path then pySplitOn '/' U.path
              else filterMidEmpty (baseParts ++ pySplitOn '/' U.path)
            let resolved := resolveSegs segments
            let resolved :=
              if segments.getLastD [] = ['.'] ∨ segments.getLastD [] = ['.', '.'] then
                resolved ++ [[]]
              else resolved
            let rp := pyJoinOn '/' resolved
            urlunparse ⟨U.scheme, netloc, (if rp = [] then ['/'] else rp),
                        U.params, U.query, U.fragment⟩

/-- `absolutize` (run.py): `base` when `href` is empty, else `urljoin`. -/
def absolutize (base href : Str) : Str :=
  if href = [] then base else urljoin base href

/-- `netloc.split(":")[0].lower()` for a URL, via `urlparse`; CPython raises
on bracketed netlocs (aborting the site), the model yields `[]` there. -/
def hostOf (u : Str) : Str :=
  match urlparseE [] u with
  | .ok P => pyLower (P.netloc.takeWhile (fun c => decide (c ≠ ':')))
  | .error _ => []

/-- `same_domain` (run.py): host of `a` ends with host of `b`. -/
def same_domain (a b : Str) : Bool := strEndsWith (hostOf b) (hostOf a)

/-- `urlparse(u).scheme.startswith("http")`. -/
def schemeHttpLike (u : Str) : Bool :=
  match urlparseE [] u with
  | .ok P => strAtStart "http".data P.scheme
  | .error _ => false

/-! ## Model of `scraper/utils/extract.py`: price regex and currency detection.

`PRICE_REGEX = (?i)(?:EGP|ج\.م|جنيه|جنيه مصري|LE|E£|£E|L\.E\.?)\s*([\d\.,]+)
              |([\d\.,]+)\s*(?:EGP|ج\.م|جنيه|جنيه مصري|LE|E£|£E|L\.E\.?)`
`re.search` is modelled as the backtracking engine specialised to this
pattern: positions are tried left to right; at each position the first
alternative is tried with its currency alternatives in order (`L\.E\.?`
greedily with the final dot first), then the second alternative.  Inside a
branch no backtracking can change the outcome because `\s` and `[\d\.,]`
are disjoint and no currency token starts with a `[\d\.,]` character, so
the maximal-munch reading below is exact. -/

/-- The currency-token alternatives of `PRICE_REGEX`, lowercased, in regex
order, with `L\.E\.?` expanded greedily. -/
def priceTokens : List Str :=
  ["egp".data, "ج.م".data, "جنيه".data, "جنيه مصري".data, "le".data,
   "e£".data, "£e".data, "l.e.".data, "l.e".data]

/-- The `[\d\.,]` character class. -/
def isNumClass (c : Char) : Bool := isAsciiDigit c ∨ c = '.' ∨ c = ','

/-- First alternative at this position for one currency token:
token, `\s*`, then a nonempty `[\d\.,]+` group. -/
def tryTok1 (s tok : Str) : Option Str :=
  if strAtStart tok (pyLower s) then
    let num := ((s.drop tok.length).dropWhile isPySpace).takeWhile isNumClass
    if num ≠ [] then some num else none
  else none

/-- Try the full pattern anchored at this position; returns the captured
numeric group (group 1 or group 2). -/
def tryPos (s : Str) : Option Str :=
  match priceTokens.findSome? (tryTok1 s) with
  | some num => some num
  | none =>
    let num := s.takeWhile isNumClass
    if num = [] then none
    else
      let rest := (s.drop num.length).dropWhile isPySpace
      if priceTokens.any (fun tok => strAtStart tok (pyLower rest)) then some num
      else none

/-- `PRICE_REGEX.search`, returning `m.group(1) or m.group(2)`. -/
def priceSearch : Str → Option Str
  | [] => none
  | c :: t =>
    match tryPos (c :: t) with
    | some num => some num
    | none => priceSearch t

/-- Value of a digit string (`""` counts as 0, as in `float(".5")`). -/
def digitsToNat (s : Str) : Nat := s.foldl (fun a c => a * 10 + (c.toNat - 48)) 0

/-- Python `float(clean)` on the strings reachable here (digits and dots):
`None` models `ValueError`.  The value is the exact decimal rational. -/
def pyFloat (s : Str) : Option ℚ :=
  let ip := s.takeWhile (fun c => decide (c ≠ '.'))
  let rest := s.dropWhile (fun c => decide (c ≠ '.'))
  match rest with
  | [] => if ip ≠ [] ∧ ip.all isAsciiDigit then some (mkRat (digitsToNat ip) 1) else none
  | _ :: fp =>
    if (ip.all isAsciiDigit ∧ fp.all isAsciiDigit) ∧ (ip ≠ [] ∨ fp ≠ []) then
      some (mkRat (digitsToNat ip * 10 ^ fp.length + digitsToNat fp) (10 ^ fp.length))
    else none

def countDots (s : Str) : Nat := (s.filter (fun c => decide (c = '.'))).length

/-- Remove the first `k` dots (`clean.replace(".", "", k)`). -/
def removeDots : Nat → Str → Str
  | _, [] => []
  | 0, s => s
  | k + 1, c :: t => if c = '.' then removeDots k t else c :: removeDots (k + 1) t

/-- The numeric half of `parse_price` on the stripped text: regex search,
`num.replace(",", "").replace(" ", "")`, collapse of repeated dots, `float`.
Every failure (`return None, raw` / the swallowed exception) is `none`. -/
def parsePriceNum (raw : Str) : Option ℚ :=
  match priceSearch raw with
  | none => none
  | some num =>
    if num = [] then none
    else
      let clean := (num.filter (fun c => decide (c ≠ ','))).filter (fun c => decide (c ≠ ' '))
      let clean2 := if 1 < countDots clean then removeDots (countDots clean - 1) clean else clean
      pyFloat clean2

/-- `parse_price` (extract.py): every branch of the source pairs its result
with `raw = text.strip()` (and `""` for falsy input). -/
def parse_price (text : Str) : Option ℚ × Str :=
  if text = [] then (none, [])
  else (parsePriceNum (pyStrip text), pyStrip text)

/-- The case-sensitive currency markers of `detect_currency`. -/
def currencyMarkers : List Str :=
  ["EGP".data, "LE".data, "E£".data, "£E".data, "L.E".data, "ج.م".data, "جنيه".data]

/-- `detect_currency` (extract.py). -/
def detect_currency (text : Str) : Str :=
  if text = [] then []
  else if currencyMarkers.any (fun sym => strHasSub sym text) then "EGP".data
  else []

/-! ## DOM model (output of `BeautifulSoup(html, "lxml")`) and the CSS
selector subset used by the code.

A `Node` is an element (tag, attributes in document order, children) or a
text node.  `select` follows `querySelectorAll` semantics as implemented by
soupsieve: it returns the strict descendants of the scoped node matching the
selector, in document (pre-order) order; for a descendant combinator the
ancestor may be any element on the path from the scoped node (inclusive) to
the candidate.  Ancestors above the scoped node are not representable in this
model; no page in scope nests product cards inside elements matched by the
ancestor parts of the selectors used. -/

inductive Node where
  | elem (tag : Str) (attrs : List (Str × Str)) (children : List Node)
  | text (s : Str)

-- Structural equality on DOM trees (Python compares the underlying HTML
-- strings; on parsed pages this coincides with tree equality).
mutual
def nodeBeq : Node → Node → Bool
  | .text a, .text b => a = b
  | .elem t1 a1 c1, .elem t2 a2 c2 => t1 = t2 && a1 = a2 && nodesBeq c1 c2
  | _, _ => false
def nodesBeq : List Node → List Node → Bool
  | [], [] => true
  | a :: as, b :: bs => nodeBeq a b && nodesBeq as bs
  | _, _ => false
end

/-- Attribute lookup (`el.get(a)` / `el[a]`). -/
def Node.attr? : Node → Str → Option Str
  | .text _, _ => none
  | .elem _ attrs _, a => (attrs.find? (fun p => decide (p.1 = a))).map (·.2)

/-- `el.has_attr(a)`. -/
def Node.hasAttr (n : Node) (a : Str) : Bool := (n.attr? a).isSome

/-- Tag name (`node.name`); `[]` for text nodes. -/
def Node.tagName : Node → Str
  | .text _ => []
  | .elem t _ _ => t

/-- Split on whitespace runs, dropping empty tokens (HTML class list). -/
def splitWSAux : Str → Str → List Str
  | [], acc => if acc = [] then [] else [acc.reverse]
  | c :: t, acc =>
    if isPySpace c then
      if acc = [] then splitWSAux t [] else acc.reverse :: splitWSAux t []
    else splitWSAux t (c :: acc)

def splitWS (s : Str) : List Str := splitWSAux s []

/-- The class tokens of an element. -/
def Node.classTokens (n : Node) : List Str :=
  match n.attr? ("class".data) with
  | some v => splitWS v
  | none => []

/-- Attribute conditions of the selector subset in use. -/
inductive AttrCond where
  | present (a : Str)
  | eqv (a v : Str)
  | sub (a v : Str)
  | subCI (a v : Str)

/-- A compound selector: optional tag, required classes, attribute conditions. -/
structure SimpleSel where
  tag : Option Str
  classes : List Str
  conds : List AttrCond

/-- One alternative of a selector group: target with an optional
ancestor (descendant combinator). -/
structure DescSel where
  anc : Option SimpleSel
  tgt : SimpleSel

/-- A selector string = group of comma-separated alternatives. -/
abbrev Sel := List DescSel

def matchCond (n : Node) : AttrCond → Bool
  | .present a => n.hasAttr a
  | .eqv a v => n.attr? a = some v
  | .sub a v =>
    match n.attr? a with
    | some w => strHasSub v w
    | none => false
  | .subCI a v =>
    match n.attr? a with
    | some w => strHasSub (pyLower v) (pyLower w)
    | none => false

def matchSimple (n : Node) (s : SimpleSel) : Bool :=
  match n with
  | .text _ => false
  | .elem t _ _ =>
    (match s.tag with | none => true | some tg => decide (t = tg)) &&
    s.classes.all (fun c => (n.classTokens).contains c) &&
    s.conds.all (matchCond n)

/-- Does `n`, whose element ancestors up to the scoped node are `ancs`,
match one alternative of the group? -/
def matchDesc (sel : Sel) (ancs : List Node) (n : Node) : Bool :=
  sel.any (fun d =>
    matchSimple n d.tgt &&
    (match d.anc with
     | none => true
     | some a => ancs.any (fun p => matchSimple p a)))

mutual
/-- All selector matches strictly below `n` (whose own ancestor list is
`ancs`), in document order. -/
def selNode (sel : Sel) (ancs : List Node) : Node → List Node
  | .text _ => []
  | .elem t a cs => selKids sel (Node.elem t a cs :: ancs) cs
def selKids (sel : Sel) (ancs : List Node) : List Node → List Node
  | [] => []
  | c :: cs =>
    (if matchDesc sel ancs c then [c] else []) ++ selNode sel ancs c ++ selKids sel ancs cs
end

/-- `node.select(sel)`. -/
def select (n : Node) (sel : Sel) : List Node := selNode sel [] n

/-- `node.select_one(sel)`. -/
def selectOne (n : Node) (sel : Sel) : Option Node := (select n sel).head?

mutual
/-- `el.get_text()`: concatenation of all text descendants. -/
def getTextRaw : Node → Str
  | .text s => s
  | .elem _ _ cs => getTextRawList cs
def getTextRawList : List Node → Str
  | [] => []
  | c :: cs => getTextRaw c ++ getTextRawList cs
end

mutual
/-- The list of text-descendant strings, in document order. -/
def textStrings : Node → List Str
  | .text s => [s]
  | .elem _ _ cs => textStringsList cs
def textStringsList : List Node → List Str
  | [] => []
  | c :: cs => textStrings c ++ textStringsList cs
end

/-- `" ".join(...)`. -/
def joinSpace : List Str → Str
  | [] => []
  | [p] => p
  | p :: ps => p ++ ' ' :: joinSpace ps

/-- `el.get_text(" ", strip=True)`: each text string stripped, empties
dropped, joined with a single space. -/
def getTextSpaceStrip (n : Node) : Str :=
  joinSpace (((textStrings n).map pyStrip).filter (fun s => decide (s ≠ [])))

/-- Worker for `collapseWS`; the flag records whether the previous character
was whitespace (already emitted as the single replacement space). -/
def collapseWSAux : Bool → Str → Str
  | _, [] => []
  | prev, c :: t =>
    if isPySpace c then
      if prev then collapseWSAux true t else ' ' :: collapseWSAux true t
    else c :: collapseWSAux false t

/-- Collapse whitespace runs to single spaces (`re.sub(r"\s+", " ", s)`). -/
def collapseWS (s : Str) : Str := collapseWSAux false s

/-- `normalize_text` (run.py): collapse whitespace, then strip. -/
def normalize_text (s : Str) : Str := pyStrip (collapseWS s)

/-- `node.string` (BeautifulSoup): the single text child, recursively
through single element children; `None` otherwise. -/
def nodeString : Node → Option Str
  | .text s => some s
  | .elem _ _ [c] => nodeString c
  | .elem _ _ _ => none

/-! ## Concrete selectors used by the extraction code. -/

def sTag (t : String) : SimpleSel := ⟨some t.data, [], []⟩
def sCls (c : String) : SimpleSel := ⟨none, [c.data], []⟩
def sTagCls (t c : String) : SimpleSel := ⟨some t.data, [c.data], []⟩
def one (s : SimpleSel) : Sel := [⟨none, s⟩]
def within (a t : SimpleSel) : Sel := [⟨some a, t⟩]

/-- `[itemprop='name']`. -/
def itempropNameSel : Sel := [⟨none, ⟨none, [], [.eqv ("itemprop".data) ("name".data)]⟩⟩]

/-- `a[href]`. -/
def aHrefSel : Sel := [⟨none, ⟨some ("a".data), [], [.present ("href".data)]⟩⟩]

/-- The generic name selector list of `extract_products` (run.py line 244). -/
def genericNameSels : List Sel :=
  [itempropNameSel, one (sCls ("product-title")), one (sCls ("product-name")),
   within (sTag ("h3")) (sTag ("a")), within (sTag ("h2")) (sTag ("a")),
   one (sTag ("h3")), one (sTag ("h2")), one (sTag ("a"))]

/-- The price selector list of `extract_products` (run.py line 259). -/
def priceTextSels : List Sel :=
  [one (sCls ("price")),
   within (sCls ("price")) (sCls ("amount")),
   within (sCls ("price")) (sCls ("money")),
   within (sCls ("price-wrapper")) (sCls ("price")),
   within (sCls ("Price")) (sCls ("money")),
   one (sCls ("current-price")),
   [⟨none, ⟨none, [], [.eqv ("itemprop".data) ("price".data)]⟩⟩],
   within (sCls ("woocommerce-Price-amount")) (sTag ("bdi")),
   one (sCls ("woocommerce-Price-amount"))]

/-- `best_text` (run.py): first selector whose first match has nonempty
normalized text. -/
def best_text (node : Node) (sels : List Sel) : Str :=
  match sels.findSome? (fun sel =>
      match selectOne node sel with
      | some el =>
        let t := normalize_text (getTextRaw el)
        if t ≠ [] then some t else none
      | none => none) with
  | some t => t
  | none => []

/-- `best_href` (run.py): first selector whose first match carries `href`;
falling back to the node itself when it is an anchor with `href`. -/
def best_href (node : Node) (sels : List Sel) : Str :=
  match sels.findSome? (fun sel =>
      match selectOne node sel with
      | some el => if el.hasAttr ("href".data) then some ((el.attr? ("href".data)).getD []) else none
      | none => none) with
  | some h => h
  | none =>
    if node.tagName = "a".data ∧ node.hasAttr ("href".data) then (node.attr? ("href".data)).getD []
    else []

/-- `_first_attr` (extract.py). -/
def firstAttr (n : Node) (attrs : List Str) : Str :=
  match attrs.findSome? (fun a =>
      match n.attr? a with
      | some v => if v ≠ [] then some v else none
      | none => none) with
  | some v => v
  | none => []

/-- The heading/link candidates of `name_from_node` (extract.py). -/
def nameCandidateSels : List Sel :=
  [within (sCls ("card__heading")) (sTag ("a")), one (sCls ("card__heading")),
   within (sCls ("product-title")) (sTag ("a")), one (sCls ("product-title")),
   itempropNameSel,
   within (sTag ("h3")) (sTag ("a")), within (sTag ("h2")) (sTag ("a")),
   one (sTag ("h3")), one (sTag ("h2")), one (sTag ("a"))]

/-- The selector group `"a, [data-product-title], [title], [aria-label]"`. -/
def attrGroupSel : Sel :=
  [⟨none, ⟨some ("a".data), [], []⟩⟩,
   ⟨none, ⟨none, [], [.present ("data-product-title".data)]⟩⟩,
   ⟨none, ⟨none, [], [.present ("title".data)]⟩⟩,
   ⟨none, ⟨none, [], [.present ("aria-label".data)]⟩⟩]

/-- `img[alt]`. -/
def imgAltSel : Sel := [⟨none, ⟨some ("img".data), [], [.present ("alt".data)]⟩⟩]

/-- `name_from_node` (extract.py): heading/link text, then the
`data-product-title`/`title`/`aria-label` attributes, then image alt text. -/
def name_from_node (card : Node) : Str :=
  match nameCandidateSels.findSome? (fun sel =>
      match selectOne card sel with
      | some el =>
        let t := getTextSpaceStrip el
        if t ≠ [] then some t else none
      | none => none) with
  | some t => t
  | none =>
    match (select card attrGroupSel).findSome? (fun el =>
        let v := firstAttr el ["data-product-title".data, "title".data, "aria-label".data]
        if v ≠ [] ∧ pyStrip v ≠ [] then some (pyStrip v) else none) with
    | some v => v
    | none =>
      match selectOne card imgAltSel with
      | some img =>
        match img.attr? ("alt".data) with
        | some v => if v ≠ [] then pyStrip v else []
        | none => []
      | none => []

/-- Modelled from the spec: `heuristic_cards` is imported by run.py from
`scraper.utils.extract` but its definition is not present in the provided
sources.  Spec §4.3 (CardLocator), steps 2–3: "try a fixed ordered list of
generic product-card selectors; first with ≥3 matches wins", "else fall back
to the parent elements of anchors whose href contains a product-path marker"
(the per-page cap is applied by the caller, run.py line 239). -/
def genericCardSels : List Sel :=
  [one (sCls ("product-card")), one (sCls ("product-item")),
   one (sTagCls ("li") ("product")), one (sCls ("product")),
   one (sCls ("grid__item")), one (sCls ("card"))]

/-- Modelled from the spec: product-path markers for the CardLocator
fallback (spec §4.3 step 3). -/
def productHrefMarkers : List Str := ["/product".data, "/item".data, "/p/".data]

def hasProductAnchorChild (cs : List Node) : Bool :=
  cs.any (fun c =>
    c.tagName = "a".data &&
    (match c.attr? ("href".data) with
     | some h => productHrefMarkers.any (fun m => strHasSub m h)
     | none => false))

mutual
def fallbackCardsN : Node → List Node
  | .text _ => []
  | .elem t a cs =>
    (if hasProductAnchorChild cs then [Node.elem t a cs] else []) ++ fallbackCardsL cs
def fallbackCardsL : List Node → List Node
  | [] => []
  | c :: cs => fallbackCardsN c ++ fallbackCardsL cs
end

/-- Modelled from the spec: `heuristic_cards` (spec §4.3, see
`genericCardSels`). -/
def heuristic_cards (soup : Node) : List Node :=
  match genericCardSels.find? (fun sel => decide (3 ≤ (select soup sel).length)) with
  | some sel => select soup sel
  | none => fallbackCardsN soup

/-- `infer_availability` (run.py). -/
def oos_markers : List Str :=
  ["out of stock".data, "sold out".data, "غير متوفر".data, "غير متاح".data,
   "نفدت الكمية".data, "out-of-stock".data, "unavailable".data]

def infer_availability (text : Str) : Str :=
  let t := pyLower text
  if oos_markers.any (fun w => strHasSub w t) then "Out of Stock".data
  else "Available".data

/-! ## JSON-LD name map (`build_jsonld_name_map`, run.py).

JSON values (the output of `json.loads`) are modelled by `Json`; the parser
itself is a `Str → Option Json` parameter (`none` = the swallowed parse
error).  `record(url, name)` stores into the mapping only when both values
are truthy; a truthy non-string `url`/`name` would make CPython raise an
uncaught `TypeError` inside `canon_url`'s fallback — such malformed
structured data is modelled as a no-op and never arises in the claims. -/

inductive Json where
  | null
  | bool (b : Bool)
  | num (q : ℚ)
  | str (s : Str)
  | arr (elems : List Json)
  | obj (kvs : List (Str × Json))

/-- Python truthiness of a JSON value. -/
def jTruthy : Json → Bool
  | .null => false
  | .bool b => b
  | .num q => decide (q ≠ 0)
  | .str s => decide (s ≠ [])
  | .arr xs => !xs.isEmpty
  | .obj kvs => !kvs.isEmpty

/-- `dict.get`. -/
def jGet (kvs : List (Str × Json)) (k : Str) : Option Json :=
  (kvs.find? (fun p => decide (p.1 = k))).map (·.2)

/-- `obj.get(k1) or obj.get(k2)` (Python truthiness `or`). -/
def jGetOr (kvs : List (Str × Json)) (k1 k2 : Str) : Option Json :=
  match jGet kvs k1 with
  | some v => if jTruthy v then some v else jGet kvs k2
  | none => jGet kvs k2

/-- `not x` for an optional JSON value. -/
def jFalsy : Option Json → Bool
  | none => true
  | some v => !jTruthy v

/-- `typ in ("Product", "ListItem")`. -/
def isProductType : Option Json → Bool
  | some (.str s) => s = "Product".data ∨ s = "ListItem".data
  | _ => false

/-- Insert-or-overwrite into the (insertion-ordered) mapping. -/
def nameMapInsert (m : List (Str × Str)) (k v : Str) : List (Str × Str) :=
  if (m.find? (fun p => decide (p.1 = k))).isSome then
    m.map (fun p => if p.1 = k then (k, v) else p)
  else m ++ [(k, v)]

/-- `dict.get` on the name map. -/
def nameMapGet (m : List (Str × Str)) (k : Str) : Option Str :=
  (m.find? (fun p => decide (p.1 = k))).map (·.2)

/-- The `@type`-guarded `record(url, name)` step of `handle` for one dict. -/
def recordStep (kvs : List (Str × Json)) (m : List (Str × Str)) : List (Str × Str) :=
  if isProductType (jGetOr kvs ("@type".data) ("type".data)) then
    let url0 := jGet kvs ("url".data)
    let item := jGet kvs ("item".data)
    let url1 :=
      if jFalsy url0 then
        match item with
        | some (.obj ikvs) => jGetOr ikvs ("@id".data) ("url".data)
        | some (.str s) => some (.str s)
        | _ => url0
      else url0
    let name0 := jGet kvs ("name".data)
    let name1 :=
      if jFalsy name0 then
        match item with
        | some (.obj ikvs) => jGet ikvs ("name".data)
        | _ => name0
      else name0
    match url1, name1 with
    | some (.str us), some (.str ns) =>
      if us ≠ [] ∧ ns ≠ [] then nameMapInsert m (canon_url us) ns else m
    | _, _ => m
  else m

mutual
/-- `handle(obj)` (run.py): record for dicts, then recurse into values /
list items. -/
def handleJson : Json → List (Str × Str) → List (Str × Str)
  | .obj kvs, m => handleKVs kvs (recordStep kvs m)
  | .arr xs, m => handleArr xs m
  | _, m => m
def handleArr : List Json → List (Str × Str) → List (Str × Str)
  | [], m => m
  | x :: xs, m => handleArr xs (handleJson x m)
def handleKVs : List (Str × Json) → List (Str × Str) → List (Str × Str)
  | [], m => m
  | (_, v) :: kvs, m => handleKVs kvs (handleJson v m)
end

/-- `script[type='application/ld+json']` (the `find_all` filter). -/
def ldJsonScriptSel : Sel :=
  [⟨none, ⟨some ("script".data), [], [.eqv ("type".data) ("application/ld+json".data)]⟩⟩]

/-- `build_jsonld_name_map` (run.py); `jloads` is the external `json.loads`
(`none` = the exception swallowed by the `try`). -/
def build_jsonld_name_map (jloads : Str → Option Json) (soup : Node) : List (Str × Str) :=
  (select soup ldJsonScriptSel).foldl
    (fun m s =>
      match jloads ((nodeString s).getD []) with
      | some data => handleJson data m
      | none => m) []

/-! ## Configuration, records, filters and `extract_products` (run.py).

Selector lists in overrides and the config are modelled at the parsed
(`Sel`) level; an absent key is the empty list / `none`.  `price_filter`
min/max are modelled as already-validated numbers (`Option ℚ`): the
`float(...)` conversion with its `try/except` is config plumbing outside the
claims.  The record's `timestamp_iso` field (wall-clock) is outside the
model; `sku` is the constant empty string. -/

structure Override where
  product_card : List Sel
  name : List Sel
  url : List Sel
  seeds : List Str
  render : Option Bool
  per_site_pages : Option Int

/-- The override value used when a site has none configured (`{}`). -/
def emptyOverride : Override := ⟨[], [], [], [], none, none⟩

structure Config where
  include_keywords : List Str
  exclude_keywords : List Str
  price_min : Option ℚ
  price_max : Option ℚ
  overrides : List (Str × Override)
  per_site_pages : Int

structure Record where
  site_name : Str
  product_name : Str
  sku : Str
  product_url : Str
  status : Str
  price_value : Option ℚ
  currency : Str
  raw_price_text : Str
  source_url : Str
  notes : Str
deriving DecidableEq

/-- The built-in accessory/peripheral URL-path allow-list (run.py). -/
def builtinPathFragments : List Str :=
  ["/accessor".data, "/accessories".data, "/controllers".data, "/controller".data,
   "/keyboards".data, "/keyboard".data, "/mouse".data, "/mice".data,
   "/headset".data, "/headphone".data, "/audio".data, "/webcam".data,
   "/monitor".data, "/stands".data, "/mount".data, "/case".data,
   "/cooler".data, "/fans".data, "/cables".data, "/adapter".data,
   "/gaming-gear".data, "/gaming-accessories".data, "/peripherals".data]

/-- `allowed_by_filters` (run.py). -/
def allowed_by_filters (name url : Str) (cfg : Config) (price : Option ℚ) : Bool :=
  let name_l := pyLower name
  let url_l := pyLower url
  let inc := cfg.include_keywords.map pyLower
  let exc := cfg.exclude_keywords.map pyLower
  if exc.any (fun w => strHasSub w name_l || strHasSub w url_l) then false
  else if (match price, cfg.price_min with
           | some pv, some lo => decide (pv < lo)
           | _, _ => false) then false
  else if (match price, cfg.price_max with
           | some pv, some hi => decide (hi < pv)
           | _, _ => false) then false
  else
    let hit := inc.any (fun w => strHasSub w name_l || strHasSub w url_l)
    let hit := if !hit then builtinPathFragments.any (fun p => strHasSub p url_l) else hit
    if inc ≠ [] ∧ hit = false then false else true

/-- `not price_val` (Python falsiness: `None` or `0.0`). -/
def priceFalsy : Option ℚ → Bool
  | none => true
  | some q => decide (q = 0)

/-- The URL resolution of the per-card loop (run.py lines 248-253). -/
def resolvedUrl (override : Override) (base_url : Str) (card : Node) : Str :=
  let url := if !override.url.isEmpty then best_href card override.url else []
  let url := if url = [] then best_href card [aHrefSel] else url
  absolutize base_url url

/-- The name cascade of the per-card loop (run.py lines 240-246 and
254-257): override selectors, generic selectors, `name_from_node`
(attributes / image alt), then the structured-data map keyed by the
canonicalized card URL. -/
def resolvedName (override : Override) (name_map : List (Str × Str)) (url : Str)
    (card : Node) : Str :=
  let name := if !override.name.isEmpty then best_text card override.name else []
  let name := if name = [] then best_text card genericNameSels else name
  let name := if name = [] then name_from_node card else name
  if name = [] ∧ url ≠ [] then
    match nameMapGet name_map (canon_url url) with
    | some nm => if nm ≠ [] then nm else name
    | none => name
  else name

/-- `price_text` of the per-card loop (run.py line 259). -/
def cardPriceText (card : Node) : Str := best_text card priceTextSels

/-- The argument passed to `parse_price` (run.py line 260). -/
def cardPriceInput (card : Node) : Str :=
  let pt := cardPriceText card
  if pt ≠ [] then pt else getTextSpaceStrip card

/-- Body of the per-card loop of `extract_products` (run.py lines 239-289):
`none` models `continue` (no record emitted for this card). -/
def cardRecord (name_map : List (Str × Str)) (base_url site_label : Str)
    (override : Override) (cfg : Config) (used : Str) (card : Node) : Option Record :=
  let url := resolvedUrl override base_url card
  let name := resolvedName override name_map url card
  let pr := parse_price (cardPriceInput card)
  let currency := pyOrStr (detect_currency (cardPriceText card)) ("EGP".data)
  let status := infer_availability (getTextSpaceStrip card)
  if pr.1 = none ∧ cfg.price_min ≠ none then none
  else if allowed_by_filters name url cfg pr.1 = false then none
  else if name = [] ∧ priceFalsy pr.1 ∧ url = base_url then none
  else some ⟨site_label, name, [], url, status, pr.1, currency, pr.2, base_url, used⟩

/-- Card location (run.py lines 227-237): first override selector with ≥3
matches, else `heuristic_cards`; the second component is the `used` tag. -/
def pickCards (override : Override) (soup : Node) : List Node × Str :=
  match override.product_card.find? (fun sel => decide (3 ≤ (select soup sel).length)) with
  | some sel => (select soup sel, "override".data)
  | none => (heuristic_cards soup, "heuristic".data)

/-- `extract_products` (run.py), over the parsed DOM and the external JSON
parser. -/
def extract_products (jloads : Str → Option Json) (soup : Node)
    (base_url site_label : Str) (override : Override) (cfg : Config) : List Record :=
  let name_map := build_jsonld_name_map jloads soup
  let (cards, used) := pickCards override soup
  (cards.take 800).filterMap (cardRecord name_map base_url site_label override cfg used)

/-! ## Frontier / crawl loop (`scrape_site`, run.py).

The network-facing pieces are parameters of `SiteEnv`: `fetchStaticF` models
`fetch_static` (`none` = the retried-then-raised exception), `fetchDynF`
models `get_html_dynamic_then_static` (`none` = the empty-string page it
returns on total failure), `sitemap` is the value of
`try_fetch_sitemap_urls(site_url)` (network + XML parsing), and `domainOf`
is `domain_of` (tldextract).  An `Html` value is the parsed DOM of a fetched
page (`none` = falsy empty page).  Timeout values, which are merely passed
through to the fetchers, are not represented.

Beyond the state of the Python code (queue, visited, records, page budget),
`CrawlState` carries three observer traces used by the theorems: `emitted`
(everything handed to the `write_jsonl`/`write_csv` sinks), `processed`
(URLs that passed the visited check and were fetched), and `enqueueLog`
(every URL ever appended to the queue, seeding included). -/

abbrev Html := Option Node

structure SiteEnv where
  jloads : Str → Option Json
  fetchStaticF : Str → Option Html
  fetchDynF : Str → Html
  domainOf : Str → Str
  sitemap : List Str
  site_url : Str
  cfg : Config
  limit : Int

structure CrawlState where
  queue : List Str
  visited : List Str
  allRecords : List Record
  emitted : List Record
  processed : List Str
  enqueueLog : List Str
  maxPages : Int

/-- `cfg.get("overrides", {}).get(site_dom) or {}`. -/
def overrideFor (cfg : Config) (dom : Str) : Override :=
  match cfg.overrides.find? (fun p => decide (p.1 = dom)) with
  | some p => p.2
  | none => emptyOverride

/-- The `fetch` closure of `scrape_site`: static first when the override
forces it (falling back on exception), else the dynamic-then-static chain. -/
def fetchPage (E : SiteEnv) (preferStatic : Bool) (cur : Str) : Html :=
  if preferStatic then
    match E.fetchStaticF cur with
    | some h => h
    | none => E.fetchDynF cur
  else E.fetchDynF cur

/-- Append `u` to the queue (and to the enqueue trace). -/
def enq (st : CrawlState) (u : Str) : CrawlState :=
  { st with queue := st.queue ++ [u], enqueueLog := st.enqueueLog ++ [u] }

/-- Initial state: site root, then up to 10 seeds, then up to 10 sitemap
URLs, each guarded by `not in queue`. -/
def initState (E : SiteEnv) : CrawlState :=
  let ov := overrideFor E.cfg (E.domainOf E.site_url)
  let st : CrawlState :=
    ⟨[E.site_url], [], [], [], [], [E.site_url], ov.per_site_pages.getD E.cfg.per_site_pages⟩
  let st := (ov.seeds.take 10).foldl
    (fun st s =>
      let u := urljoin E.site_url s
      if u ∈ st.queue then st else enq st u) st
  (E.sitemap.take 10).foldl (fun st u => if u ∈ st.queue then st else enq st u) st

/-- The built-in category keyword set of `discover_category_links_by_text`. -/
def builtinCatWords : List Str :=
  ["accessor".data, "gaming".data, "keyboard".data, "mouse".data, "headset".data,
   "controller".data, "gamepad".data, "webcam".data, "microphone".data,
   "monitor".data, "stand".data, "mount".data, "arm".data, "dock".data,
   "usb".data, "cable".data, "rgb".data, "chair".data, "pad".data, "mat".data]

/-- `discover_category_links_by_text` (run.py).  `out` and `seen` of the
source always hold the same URLs, so one list serves as both. -/
def discover_category_links (soup : Node) (base_url : Str) (cfg : Config) : List Str :=
  let words := cfg.include_keywords.map pyLower ++ builtinCatWords
  ((select soup aHrefSel).foldl
    (fun out a =>
      let text := pyLower (pyStrip (getTextRaw a))
      let href := (a.attr? ("href".data)).getD []
      if href = [] then out
      else if words.any (fun w => strHasSub w text) || words.any (fun w => strHasSub w (pyLower href)) then
        let url := absolutize base_url href
        if schemeHttpLike url ∧ same_domain url base_url ∧ url ∉ out then out ++ [url]
        else out
      else out) []).take 12

/-- The pagination selector list of `scrape_site` (run.py line 422). -/
def paginationSels : List Sel :=
  [[⟨none, ⟨some ("a".data), [], [.eqv ("rel".data) ("next".data)]⟩⟩],
   [⟨none, ⟨some ("link".data), [], [.eqv ("rel".data) ("next".data)]⟩⟩],
   one (sTagCls ("a") ("next")),
   one (sTagCls ("a") ("pagination__next")),
   [⟨none, ⟨some ("a".data), ["page-link".data], [.eqv ("rel".data) ("next".data)]⟩⟩],
   [⟨none, ⟨some ("a".data), [], [.subCI ("aria-label".data) ("Next".data)]⟩⟩],
   [⟨none, ⟨some ("a".data), [], [.sub ("href".data) ("?page=".data)]⟩⟩],
   [⟨none, ⟨some ("a".data), [], [.sub ("href".data) ("/page/".data)]⟩⟩],
   within (sTagCls ("li") ("pagination-next")) (sTag ("a")),
   within (sCls ("pagination")) (sTagCls ("a") ("next"))]

/-- The `nexts` list of pagination candidates for one page. -/
def pageNextLinks (soup : Node) (cur : Str) : List Str :=
  paginationSels.foldl
    (fun acc sel =>
      (select soup sel).foldl
        (fun acc el =>
          let href := pyOrStr ((el.attr? ("href".data)).getD [])
                              ((el.attr? ("content".data)).getD [])
          if href = [] then acc
          else
            let u := absolutize cur href
            if schemeHttpLike u ∧ same_domain u cur then acc ++ [u] else acc)
        acc)
    []

/-- Enqueue pagination candidates with the `seen_local` dedup set. -/
def enqNexts : CrawlState → List Str → List Str → CrawlState
  | st, [], _ => st
  | st, u :: us, seen =>
    if u ∉ st.visited ∧ u ∉ st.queue ∧ u ∉ seen ∧ st.queue.length < 60 then
      enqNexts (enq st u) us (seen ++ [u])
    else enqNexts st us seen

/-- The record write/append phase of the loop body (run.py lines 403-411,
with the `need <= 0` break case handled by the caller). -/
def recsPhase (limit : Int) (recs : List Record) (st : CrawlState) : CrawlState :=
  if recs.isEmpty then st
  else
    let recs2 :=
      if limit = 0 then recs
      else recs.take ((limit - (st.allRecords.length : Int)).toNat)
    { st with emitted := st.emitted ++ recs2, allRecords := st.allRecords ++ recs2 }

/-- The category-discovery phase (run.py lines 413-417). -/
def catsPhase (links : List Str) (st : CrawlState) : CrawlState :=
  if st.visited.length ≤ 3 then
    links.foldl
      (fun st u =>
        if u ∉ st.visited ∧ u ∉ st.queue ∧ st.queue.length < 60 then enq st u else st)
      st
  else st

/-- The pagination phase (run.py lines 419-434). -/
def pagPhase (nexts : List Str) (st : CrawlState) : CrawlState :=
  if 0 < st.maxPages then
    let st2 := enqNexts st nexts []
    { st2 with maxPages := st2.maxPages - 1 }
  else st

/-- One iteration of the `while` loop of `scrape_site` (assuming its
condition holds); the Bool is `false` when the body executed `break`. -/
def crawlStep (E : SiteEnv) (st : CrawlState) : CrawlState × Bool :=
  match st.queue with
  | [] => (st, false)
  | cur :: rest =>
    if cur ∈ st.visited then ({ st with queue := rest }, true)
    else
      let ov := overrideFor E.cfg (E.domainOf E.site_url)
      let preferStatic := ov.render = some false
      let st := { st with queue := rest, visited := st.visited ++ [cur],
                          processed := st.processed ++ [cur] }
      match fetchPage E preferStatic cur with
      | none => (st, true)
      | some soup =>
        let site_dom := E.domainOf E.site_url
        let recs := extract_products E.jloads soup cur site_dom ov E.cfg
        let recs :=
          if preferStatic ∧ recs = [] then
            match E.fetchDynF cur with
            | some soup2 =>
              if nodeBeq soup2 soup = false then
                extract_products E.jloads soup2 cur site_dom ov E.cfg
              else recs
            | none => recs
          else recs
        if recs ≠ [] ∧ ¬E.limit = 0 ∧ E.limit - (st.allRecords.length : Int) ≤ 0 then
          (st, false)
        else
          (pagPhase (pageNextLinks soup cur)
            (catsPhase (discover_category_links soup cur E.cfg)
              (recsPhase E.limit recs st)), true)

/-- The `while` loop, fuel-indexed. -/
def crawlLoop (E : SiteEnv) : Nat → CrawlState → CrawlState
  | 0, st => st
  | fuel + 1, st =>
    if st.queue ≠ [] ∧ (E.limit = 0 ∨ (st.allRecords.length : Int) < E.limit) ∧
        st.visited.length < 5000 then
      match crawlStep E st with
      | (st2, true) => crawlLoop E fuel st2
      | (st2, false) => st2
    else st

def scrapeRun (E : SiteEnv) (fuel : Nat) : CrawlState := crawlLoop E fuel (initState E)

/-- Python `l[:i]` (negative stops count from the end). -/
def pySliceTo (i : Int) (l : List α) : List α :=
  l.take (if 0 ≤ i then i.toNat else ((l.length : Int) + i).toNat)

/-- `scrape_site` (run.py): the returned record list. -/
def scrape_site (E : SiteEnv) (fuel : Nat) : List Record :=
  let st := scrapeRun E fuel
  if E.limit = 0 then st.allRecords else pySliceTo E.limit st.allRecords

/-! ## Concrete fixtures used by the claim theorems and witnesses. -/

/-- `<div class="product"><h2>Widget</h2><span class="price">EGP 250</span></div>`
as parsed by lxml. -/
def widgetCard : Node :=
  .elem ("div".data) [("class".data, "product".data)]
    [.elem ("h2".data) [] [.text ("Widget".data)],
     .elem ("span".data) [("class".data, "price".data)] [.text ("EGP 250".data)]]

/-- The document for three repetitions of the widget card (lxml wraps the
fragment in `html`/`body`; the root is the BeautifulSoup document node). -/
def widgetPage : Node :=
  .elem ("[document]".data) []
    [.elem ("html".data) [] [.elem ("body".data) [] [widgetCard, widgetCard, widgetCard]]]

/-- A configuration with no filters, no price bounds, no overrides. -/
def cfgEmpty : Config := ⟨[], [], none, none, [], 10⟩

/-- C1: For a page whose HTML is three repetitions of
`<div class="product"><h2>Widget</h2><span class="price">EGP 250</span></div>`
and a site with no overrides, `extract_products` yields exactly 3 records,
each with product_name "Widget", price_value 250.0, currency "EGP" and
status "Available". -/
theorem c1_three_widget_records :
    (extract_products (fun _ => none) widgetPage ("http://ex.com".data) ("ex.com".data)
        emptyOverride cfgEmpty).map
        (fun r => (r.product_name, r.price_value, r.currency, r.status)) =
      [("Widget".data, some (mkRat 250 1), "EGP".data, "Available".data),
       ("Widget".data, some (mkRat 250 1), "EGP".data, "Available".data),
       ("Widget".data, some (mkRat 250 1), "EGP".data, "Available".data)] := by
  decide

/-- C4: Price parsing is currency-position-invariant: `"EGP 1,234.50"` and
`"1234.50 EGP"` both parse to the numeric value 1234.50 (= 2469/2), and
`detect_currency` returns "EGP" for both strings. -/
theorem c4_price_position_invariant :
    (parse_price ("EGP 1,234.50".data)).1 = some (mkRat 2469 2) ∧
    (parse_price ("1234.50 EGP".data)).1 = some (mkRat 2469 2) ∧
    detect_currency ("EGP 1,234.50".data) = "EGP".data ∧
    detect_currency ("1234.50 EGP".data) = "EGP".data := by
  decide

/-- C8: `parse_price` never raises: for every input string it returns either
a parsed number paired with the (stripped) raw price text, or an unknown
price (`none`) paired with the same raw text. -/
theorem c8_parse_price_total (s : Str) :
    parse_price s = (none, pyStrip s) ∨ ∃ q : ℚ, parse_price s = (some q, pyStrip s) := by
  by_cases h : s = []
  · subst h; exact Or.inl rfl
  · unfold parse_price
    rw [if_neg h]
    cases hn : parsePriceNum (pyStrip s) with
    | none => exact Or.inl rfl
    | some q => exact Or.inr ⟨q, rfl⟩

theorem infer_availability_eq (text : Str) :
    infer_availability text =
      if oos_markers.any (fun w => strHasSub w (pyLower text)) then "Out of Stock".data
      else "Available".data := rfl

/-- C9: `infer_availability` returns "Out of Stock" exactly when the text
contains (case-insensitively) one of the bilingual out-of-stock markers, and
"Available" otherwise — a binary state with no Unknown. -/
theorem c9_availability_binary (t : Str) :
    (infer_availability t = "Out of Stock".data ↔
      ∃ m, m ∈ oos_markers ∧ ∃ pre post, pyLower t = pre ++ m ++ post) ∧
    (infer_availability t = "Out of Stock".data ∨ infer_availability t = "Available".data) := by
  rw [infer_availability_eq]
  by_cases h : oos_markers.any (fun w => strHasSub w (pyLower t)) = true
  · rw [if_pos h]
    refine ⟨⟨fun _ => ?_, fun _ => rfl⟩, Or.inl rfl⟩
    rw [List.any_eq_true] at h
    obtain ⟨m, hm, hsub⟩ := h
    obtain ⟨pre, post, e⟩ := (strHasSub_iff m (pyLower t)).1 hsub
    exact ⟨m, hm, pre, post, e⟩
  · rw [if_neg h]
    refine ⟨⟨fun hc => absurd hc (by decide), ?_⟩, Or.inr rfl⟩
    rintro ⟨m, hm, pre, post, e⟩
    exact absurd (List.any_eq_true.2 ⟨m, hm, (strHasSub_iff m (pyLower t)).2 ⟨pre, post, e⟩⟩) h

/-- C7: When a minimum price filter is configured and the card's price text
cannot be parsed, the per-card loop emits no record (run.py lines 265-268). -/
theorem c7_min_filter_rejects_unparsed (nm : List (Str × Str)) (base lbl : Str)
    (ov : Override) (cfg : Config) (used : Str) (card : Node)
    (hmin : cfg.price_min ≠ none)
    (hp : (parse_price (cardPriceInput card)).1 = none) :
    cardRecord nm base lbl ov cfg used card = none := by
  unfold cardRecord
  rw [if_pos ⟨hp, hmin⟩]

/-- Concrete card whose whole text is "Contact us" (no parseable price). -/
def contactCard : Node := .elem ("div".data) [] [.text ("Contact us".data)]

/-- A configuration with `price_filter.min = 100`. -/
def cfgMin100 : Config := ⟨[], [], some (mkRat 100 1), none, [], 10⟩

theorem c7_witness :
    cfgMin100.price_min ≠ none ∧
    (parse_price (cardPriceInput contactCard)).1 = none ∧
    cardRecord [] ("http://ex.com".data) ("ex.com".data) emptyOverride cfgMin100
      ("heuristic".data) contactCard = none :=
  ⟨by decide, by decide,
   c7_min_filter_rejects_unparsed [] ("http://ex.com".data) ("ex.com".data) emptyOverride
     cfgMin100 ("heuristic".data) contactCard (by decide) (by decide)⟩

theorem cardRecord_currency (nm : List (Str × Str)) (base lbl : Str) (ov : Override)
    (cfg : Config) (used : Str) (card : Node) (r : Record)
    (h : cardRecord nm base lbl ov cfg used card = some r) :
    r.currency = pyOrStr (detect_currency (cardPriceText card)) ("EGP".data) := by
  unfold cardRecord at h
  dsimp only [] at h
  split at h
  · exact absurd h (by simp)
  · split at h
    · exact absurd h (by simp)
    · split at h
      · exact absurd h (by simp)
      · injection h with h'
        rw [← h']

theorem detect_currency_dichotomy (s : Str) :
    detect_currency s = "EGP".data ∨ detect_currency s = [] := by
  unfold detect_currency
  split
  · exact Or.inr rfl
  · split
    · exact Or.inl rfl
    · exact Or.inr rfl

/-- C10: every record emitted by `extract_products` has currency exactly
"EGP": `detect_currency` yields "EGP" or the empty string, and the empty
string is replaced by the default "EGP" before the record is built. -/
theorem c10_currency_always_egp :
    (∀ s : Str, detect_currency s = "EGP".data ∨ detect_currency s = []) ∧
    (∀ (jloads : Str → Option Json) (soup : Node) (base lbl : Str) (ov : Override)
        (cfg : Config) (r : Record),
        r ∈ extract_products jloads soup base lbl ov cfg → r.currency = "EGP".data) := by
  refine ⟨detect_currency_dichotomy, ?_⟩
  intro jloads soup base lbl ov cfg r hr
  unfold extract_products at hr
  rw [List.mem_filterMap] at hr
  obtain ⟨card, _, hc⟩ := hr
  rw [cardRecord_currency _ _ _ _ _ _ _ _ hc]
  rcases detect_currency_dichotomy (cardPriceText card) with h | h <;>
    simp [pyOrStr, h]

theorem c10_witness :
    ∃ r : Record,
      r ∈ extract_products (fun _ => none) widgetPage ("http://ex.com".data) ("ex.com".data)
          emptyOverride cfgEmpty ∧
      r.currency = "EGP".data := by
  refine ⟨(extract_products (fun _ => none) widgetPage ("http://ex.com".data) ("ex.com".data)
      emptyOverride cfgEmpty).headD
      ⟨[], [], [], [], [], none, [], [], [], []⟩, ?_, ?_⟩
  · decide
  · exact c10_currency_always_egp.2 (fun _ => none) widgetPage ("http://ex.com".data)
      ("ex.com".data) emptyOverride cfgEmpty _ (by decide)

/-- C2 (amended): the product-name cascade of the per-card loop is
override name-selectors → generic heading/link selectors → `name_from_node`
(attributes `data-product-title`/`title`/`aria-label`, then image alt) →
structured-data name keyed by the canonicalized card URL.  The structured
data is consulted only when all three earlier stages produce nothing. -/
theorem c2_name_cascade_order :
    (∀ (ov : Override) (nm : List (Str × Str)) (url : Str) (card : Node),
        ov.name ≠ [] → best_text card ov.name ≠ [] →
        resolvedName ov nm url card = best_text card ov.name) ∧
    (∀ (ov : Override) (nm : List (Str × Str)) (url : Str) (card : Node),
        (ov.name = [] ∨ best_text card ov.name = []) →
        best_text card genericNameSels ≠ [] →
        resolvedName ov nm url card = best_text card genericNameSels) ∧
    (∀ (ov : Override) (nm : List (Str × Str)) (url : Str) (card : Node),
        (ov.name = [] ∨ best_text card ov.name = []) →
        best_text card genericNameSels = [] → name_from_node card ≠ [] →
        resolvedName ov nm url card = name_from_node card) ∧
    (∀ (ov : Override) (nm : List (Str × Str)) (url : Str) (card : Node) (jn : Str),
        (ov.name = [] ∨ best_text card ov.name = []) →
        best_text card genericNameSels = [] → name_from_node card = [] →
        url ≠ [] → nameMapGet nm (canon_url url) = some jn → jn ≠ [] →
        resolvedName ov nm url card = jn) := by
  refine ⟨?_, ?_, ?_, ?_⟩
  · intro ov nm url card h1 h2
    unfold resolvedName
    have e1 : (!ov.name.isEmpty) = true := by
      cases hn : ov.name with
      | nil => exact absurd hn h1
      | cons a l => rfl
    rw [e1]
    dsimp only []
    rw [if_pos rfl, if_neg h2, if_neg h2, if_neg (fun hc => h2 hc.1)]
  all_goals
    intro ov nm url card
  · intro h1 h2
    unfold resolvedName
    have hn1 : (if (!ov.name.isEmpty) = true then best_text card ov.name else []) = [] := by
      rcases h1 with h | h
      · rw [h]; rfl
      · rw [h, ite_self]
    dsimp only []
    rw [hn1, if_pos rfl, if_neg h2, if_neg (fun hc => h2 hc.1)]
  · intro h1 h2 h3
    unfold resolvedName
    have hn1 : (if (!ov.name.isEmpty) = true then best_text card ov.name else []) = [] := by
      rcases h1 with h | h
      · rw [h]; rfl
      · rw [h, ite_self]
    dsimp only []
    rw [hn1, if_pos rfl, h2, if_pos rfl, if_neg (fun hc => h3 hc.1)]
  · intro jn h1 h2 h3 h4 h5 h6
    unfold resolvedName
    have hn1 : (if (!ov.name.isEmpty) = true then best_text card ov.name else []) = [] := by
      rcases h1 with h | h
      · rw [h]; rfl
      · rw [h, ite_self]
    dsimp only []
    rw [hn1, if_pos rfl, h2, if_pos rfl, h3, if_pos ⟨rfl, h4⟩, h5]
    dsimp only []
    rw [if_pos h6]

/-- One counterexample card: `<div class="product"><a href="/pK" title="Attr K"></a></div>`. -/
def ceCard (k : Nat) : Node :=
  .elem ("div".data) [("class".data, "product".data)]
    [.elem ("a".data)
      [("href".data, ("/p".data ++ [Char.ofNat (48 + k)])),
       ("title".data, ("Attr ".data ++ [Char.ofNat (48 + k)]))] []]

/-- The JSON-LD text embedded in the counterexample page. -/
def ceJsonText : Str :=
  "[\x7b\"@type\": \"Product\", \"url\": \"http://ex2.com/p1\", \"name\": \"Json 1\"\x7d, \x7b\"@type\": \"Product\", \"url\": \"http://ex2.com/p2\", \"name\": \"Json 2\"\x7d, \x7b\"@type\": \"Product\", \"url\": \"http://ex2.com/p3\", \"name\": \"Json 3\"\x7d]".data

/-- The value `json.loads` produces for `ceJsonText`. -/
def ceJsonVal : Json :=
  .arr
    [.obj [("@type".data, .str ("Product".data)), ("url".data, .str ("http://ex2.com/p1".data)),
           ("name".data, .str ("Json 1".data))],
     .obj [("@type".data, .str ("Product".data)), ("url".data, .str ("http://ex2.com/p2".data)),
           ("name".data, .str ("Json 2".data))],
     .obj [("@type".data, .str ("Product".data)), ("url".data, .str ("http://ex2.com/p3".data)),
           ("name".data, .str ("Json 3".data))]]

def ceJloads (s : Str) : Option Json := if s = ceJsonText then some ceJsonVal else none

/-- Counterexample page: a JSON-LD script naming all three product URLs,
and three heading-less cards each carrying a `title` attribute. -/
def cePage : Node :=
  .elem ("[document]".data) []
    [.elem ("html".data) []
      [.elem ("head".data) []
        [.elem ("script".data) [("type".data, "application/ld+json".data)] [.text ceJsonText]],
       .elem ("body".data) [] [ceCard 1, ceCard 2, ceCard 3]]]

/-- An override selecting the three cards via `product_card` (run.py's
override card path needs ≥3 matches). -/
def ceOverride : Override := { emptyOverride with product_card := [one (sCls ("product"))] }

set_option maxRecDepth 100000 in
theorem c2_counterexample :
    (extract_products ceJloads cePage ("http://ex2.com".data) ("ex2.com".data) ceOverride
        cfgEmpty).map (fun r => r.product_name) =
      ["Attr 1".data, "Attr 2".data, "Attr 3".data] ∧
    best_text (ceCard 1) genericNameSels = [] ∧
    (nameMapGet (build_jsonld_name_map ceJloads cePage)
        (canon_url (resolvedUrl ceOverride ("http://ex2.com".data) (ceCard 1))) =
      some ("Json 1".data)) ∧
    ("Attr 1".data : Str) ≠ ("Json 1".data : Str) := by
  decide

/-- A heading-less, attribute-less card. -/
def bareCard : Node := .elem ("div".data) [] []

/-- A one-entry structured-data map for the witness. -/
def ceMap : List (Str × Str) := [("http://ex2.com/p1".data, "Json 1".data)]

theorem c2_witness :
    (best_text (ceCard 1) genericNameSels = [] ∧ name_from_node (ceCard 1) ≠ [] ∧
      resolvedName emptyOverride ceMap ("http://ex2.com/p1".data) (ceCard 1) =
        name_from_node (ceCard 1)) ∧
    (name_from_node bareCard = [] ∧
      nameMapGet ceMap (canon_url ("http://ex2.com/p1".data)) = some ("Json 1".data) ∧
      resolvedName emptyOverride ceMap ("http://ex2.com/p1".data) bareCard = "Json 1".data) :=
  ⟨⟨by decide, by decide,
    c2_name_cascade_order.2.2.1 emptyOverride ceMap ("http://ex2.com/p1".data) (ceCard 1)
      (Or.inl rfl) (by decide) (by decide)⟩,
   ⟨by decide, by decide,
    c2_name_cascade_order.2.2.2 emptyOverride ceMap ("http://ex2.com/p1".data) bareCard
      ("Json 1".data) (Or.inl rfl) (by decide) (by decide) (by decide) (by decide)
      (by decide)⟩⟩


/-! ## C6: the record budget. -/

/-- Record-side invariant of the crawl loop: everything handed to the sinks
is exactly `allRecords`, and (when a positive limit is set) at most `limit`
records have been accumulated. -/
def recInv (limit : Int) (st : CrawlState) : Prop :=
  st.emitted = st.allRecords ∧ (0 < limit → (st.allRecords.length : Int) ≤ limit)

theorem recInv_congr {limit : Int} {st st' : CrawlState}
    (ha : st'.allRecords = st.allRecords) (he : st'.emitted = st.emitted)
    (h : recInv limit st) : recInv limit st' := by
  unfold recInv
  rw [ha, he]
  exact h

theorem foldl_records {f : CrawlState → Str → CrawlState}
    (hf : ∀ st u, (f st u).allRecords = st.allRecords ∧ (f st u).emitted = st.emitted)
    (l : List Str) (st : CrawlState) :
    (l.foldl f st).allRecords = st.allRecords ∧ (l.foldl f st).emitted = st.emitted := by
  induction l generalizing st with
  | nil => exact ⟨rfl, rfl⟩
  | cons a l ih =>
    rw [List.foldl_cons]
    exact ⟨((ih (f st a)).1).trans (hf st a).1, ((ih (f st a)).2).trans (hf st a).2⟩

theorem enqNexts_records (us : List Str) (seen : List Str) (st : CrawlState) :
    (enqNexts st us seen).allRecords = st.allRecords ∧
    (enqNexts st us seen).emitted = st.emitted := by
  induction us generalizing st seen with
  | nil => exact ⟨rfl, rfl⟩
  | cons u us ih =>
    unfold enqNexts
    split
    · exact ⟨((ih _ _).1).trans rfl, ((ih _ _).2).trans rfl⟩
    · exact ih seen st

theorem catsPhase_records (links : List Str) (st : CrawlState) :
    (catsPhase links st).allRecords = st.allRecords ∧
    (catsPhase links st).emitted = st.emitted := by
  unfold catsPhase
  split
  · exact foldl_records (fun st u => by split <;> exact ⟨rfl, rfl⟩) links st
  · exact ⟨rfl, rfl⟩

theorem pagPhase_records (nexts : List Str) (st : CrawlState) :
    (pagPhase nexts st).allRecords = st.allRecords ∧
    (pagPhase nexts st).emitted = st.emitted := by
  unfold pagPhase
  split
  · exact ⟨(enqNexts_records nexts [] st).1, (enqNexts_records nexts [] st).2⟩
  · exact ⟨rfl, rfl⟩

theorem recsPhase_recInv (limit : Int) (recs : List Record) (st : CrawlState)
    (h : recInv limit st)
    (hbrk : ¬(recs ≠ [] ∧ ¬limit = 0 ∧ limit - (st.allRecords.length : Int) ≤ 0)) :
    recInv limit (recsPhase limit recs st) := by
  unfold recsPhase
  split
  · exact h
  · next hne =>
    have hrecs : recs ≠ [] := fun hc => by rw [hc] at hne; exact hne rfl
    dsimp only []
    constructor
    · rw [h.1]
    · intro hpos
      have hz : ¬limit = 0 := by omega
      rw [List.length_append, if_neg hz]
      have hlen : (st.allRecords.length : Int) ≤ limit := h.2 hpos
      have hneed : 0 < limit - (st.allRecords.length : Int) := by
        rcases not_and_or.1 hbrk with hc | hc
        · exact absurd hrecs hc
        · rcases not_and_or.1 hc with hc2 | hc2
          · exact absurd hz hc2
          · omega
      have htk : (recs.take ((limit - (st.allRecords.length : Int)).toNat)).length ≤
          (limit - (st.allRecords.length : Int)).toNat := by
        rw [List.length_take]
        omega
      push_cast
      omega

theorem stepTail_recInv (E : SiteEnv) (recs : List Record) (soup : Node) (cur : Str)
    (st : CrawlState) (h : recInv E.limit st) :
    recInv E.limit
      ((if recs ≠ [] ∧ ¬E.limit = 0 ∧ E.limit - (st.allRecords.length : Int) ≤ 0 then
          (st, false)
        else
          (pagPhase (pageNextLinks soup cur)
            (catsPhase (discover_category_links soup cur E.cfg)
              (recsPhase E.limit recs st)), true)).1) := by
  split
  · exact h
  · next hbrk =>
    apply recInv_congr (pagPhase_records _ _).1 (pagPhase_records _ _).2
    apply recInv_congr (catsPhase_records _ _).1 (catsPhase_records _ _).2
    exact recsPhase_recInv E.limit _ _ h hbrk

set_option maxHeartbeats 2000000 in
theorem crawlStep_recInv (E : SiteEnv) (st : CrawlState) (h : recInv E.limit st) :
    recInv E.limit (crawlStep E st).1 := by
  unfold crawlStep
  split
  · exact h
  · rename_i cur rest heq
    split
    · exact h
    · dsimp only []
      split
      · exact h
      · rename_i soup heq2
        exact stepTail_recInv E _ soup cur
          ({ st with
              queue := rest
              visited := st.visited ++ [cur]
              processed := st.processed ++ [cur] }) h

theorem crawlLoop_recInv (E : SiteEnv) (fuel : Nat) (st : CrawlState)
    (h : recInv E.limit st) : recInv E.limit (crawlLoop E fuel st) := by
  induction fuel generalizing st with
  | zero => exact h
  | succ fuel ih =>
    rw [crawlLoop]
    split
    · rcases hs : crawlStep E st with ⟨st2, b⟩
      have h2 : recInv E.limit st2 := by
        have hh := crawlStep_recInv E st h
        rw [hs] at hh
        exact hh
      cases b
      · exact h2
      · exact ih st2 h2
    · exact h

theorem initState_recInv (E : SiteEnv) : recInv E.limit (initState E) := by
  unfold initState
  dsimp only []
  apply recInv_congr
    (foldl_records (fun st u => by try dsimp only []
                                   split <;> exact ⟨rfl, rfl⟩) _ _).1
    (foldl_records (fun st u => by try dsimp only []
                                   split <;> exact ⟨rfl, rfl⟩) _ _).2
  apply recInv_congr
    (foldl_records (fun st u => by try dsimp only []
                                   split <;> exact ⟨rfl, rfl⟩) _ _).1
    (foldl_records (fun st u => by try dsimp only []
                                   split <;> exact ⟨rfl, rfl⟩) _ _).2
  refine ⟨rfl, fun hp => ?_⟩
  simp only [List.length_nil, Int.natCast_zero]
  omega

theorem scrapeRun_recInv (E : SiteEnv) (fuel : Nat) : recInv E.limit (scrapeRun E fuel) :=
  crawlLoop_recInv E fuel (initState E) (initState_recInv E)

/-- C6: for every positive limit, `scrape_site` emits and returns at most
`limit` records (and returns exactly what was emitted); the sentinel value
0 means unlimited (the full record list is returned untruncated). -/
theorem c6_record_limit (E : SiteEnv) (fuel : Nat) :
    (0 < E.limit →
      ((scrape_site E fuel).length : Int) ≤ E.limit ∧
      ((scrapeRun E fuel).emitted.length : Int) ≤ E.limit ∧
      scrape_site E fuel = (scrapeRun E fuel).emitted) ∧
    (E.limit = 0 → scrape_site E fuel = (scrapeRun E fuel).allRecords) := by
  have hinv := scrapeRun_recInv E fuel
  constructor
  · intro hpos
    have hlen : ((scrapeRun E fuel).allRecords.length : Int) ≤ E.limit := hinv.2 hpos
    have hz : ¬E.limit = 0 := by omega
    have hnn : (0 : Int) ≤ E.limit := le_of_lt hpos
    have hsite : scrape_site E fuel = (scrapeRun E fuel).allRecords := by
      unfold scrape_site pySliceTo
      rw [if_neg hz, if_pos hnn]
      refine List.take_of_length_le ?_
      omega
    refine ⟨?_, ?_, ?_⟩
    · rw [hsite]; exact hlen
    · rw [hinv.1]; exact hlen
    · rw [hsite, hinv.1]
  · intro hzz
    unfold scrape_site
    rw [if_pos hzz]

/-- Environment for the C6 witness: the widget page at the site root,
record limit 1. -/
def envC6 : SiteEnv :=
  ⟨fun _ => none, fun _ => none,
   fun u => if u = "http://ex.com".data then some widgetPage else none,
   fun _ => "ex.com".data, [], "http://ex.com".data, cfgEmpty, 1⟩

theorem c6_witness :
    (0 : Int) < envC6.limit ∧
    (((scrape_site envC6 5).length : Int) ≤ envC6.limit ∧
      ((scrapeRun envC6 5).emitted.length : Int) ≤ envC6.limit ∧
      scrape_site envC6 5 = (scrapeRun envC6 5).emitted) :=
  ⟨by decide, (c6_record_limit envC6 5).1 (by decide)⟩

/-! ## C5: the frontier never re-visits or re-enqueues. -/

/-- Frontier invariant: the queue has no duplicates and is disjoint from the
visited set, `processed` is exactly the visited list (in visit order), the
enqueue trace has no duplicates, and every URL ever enqueued is now either
still queued or visited. -/
structure FrontierInv (st : CrawlState) : Prop where
  queueNodup : st.queue.Nodup
  visitedNodup : st.visited.Nodup
  processedEq : st.processed = st.visited
  queueFresh : ∀ u ∈ st.queue, u ∉ st.visited
  logNodup : st.enqueueLog.Nodup
  logCover : ∀ u ∈ st.enqueueLog, u ∈ st.queue ∨ u ∈ st.visited

theorem nodup_append_singleton {α : Type} {l : List α} {u : α}
    (h : l.Nodup) (hn : u ∉ l) : (l ++ [u]).Nodup := by
  rw [List.nodup_append]
  refine ⟨h, List.nodup_singleton u, ?_⟩
  intro a ha hb
  rw [List.mem_singleton] at hb
  subst hb
  exact hn ha

theorem FrontierInv.enq {st : CrawlState} (h : FrontierInv st) {u : Str}
    (hq : u ∉ st.queue) (hv : u ∉ st.visited) : FrontierInv (enq st u) := by
  have hlog : u ∉ st.enqueueLog := fun hl => by
    rcases h.logCover u hl with hc | hc
    · exact hq hc
    · exact hv hc
  refine ⟨nodup_append_singleton h.queueNodup hq, h.visitedNodup, h.processedEq, ?_,
    nodup_append_singleton h.logNodup hlog, ?_⟩
  · intro a ha
    rcases List.mem_append.1 ha with hc | hc
    · exact h.queueFresh a hc
    · rw [List.mem_singleton] at hc
      subst hc
      exact hv
  · intro a ha
    rcases List.mem_append.1 ha with hc | hc
    · rcases h.logCover a hc with hd | hd
      · exact Or.inl (List.mem_append.2 (Or.inl hd))
      · exact Or.inr hd
    · rw [List.mem_singleton] at hc
      subst hc
      exact Or.inl (List.mem_append.2 (Or.inr (List.mem_singleton.2 rfl)))

theorem FrontierInv.congr {st st' : CrawlState} (h : FrontierInv st)
    (hq : st'.queue = st.queue) (hv : st'.visited = st.visited)
    (hp : st'.processed = st.processed) (hl : st'.enqueueLog = st.enqueueLog) :
    FrontierInv st' := by
  refine ⟨?_, ?_, ?_, ?_, ?_, ?_⟩
  · rw [hq]; exact h.queueNodup
  · rw [hv]; exact h.visitedNodup
  · rw [hp, hv]; exact h.processedEq
  · rw [hq, hv]; exact h.queueFresh
  · rw [hl]; exact h.logNodup
  · rw [hl, hq, hv]; exact h.logCover

theorem recsPhase_frontierInv (limit : Int) (recs : List Record) (st : CrawlState)
    (h : FrontierInv st) : FrontierInv (recsPhase limit recs st) := by
  unfold recsPhase
  split
  · exact h
  · exact h.congr rfl rfl rfl rfl

theorem catsPhase_frontierInv (links : List Str) (st : CrawlState)
    (h : FrontierInv st) : FrontierInv (catsPhase links st) := by
  unfold catsPhase
  split
  · clear * - h
    induction links generalizing st with
    | nil => exact h
    | cons a l ih =>
      rw [List.foldl_cons]
      apply ih
      split
      · next hc => exact h.enq hc.2.1 hc.1
      · exact h
  · exact h

theorem enqNexts_frontierInv (us : List Str) (seen : List Str) (st : CrawlState)
    (h : FrontierInv st) : FrontierInv (enqNexts st us seen) := by
  induction us generalizing st seen with
  | nil => exact h
  | cons u us ih =>
    unfold enqNexts
    split
    · next hc => exact ih _ _ (h.enq hc.2.1 hc.1)
    · exact ih _ _ h

theorem pagPhase_frontierInv (nexts : List Str) (st : CrawlState)
    (h : FrontierInv st) : FrontierInv (pagPhase nexts st) := by
  unfold pagPhase
  split
  · exact (enqNexts_frontierInv nexts [] st h).congr rfl rfl rfl rfl
  · exact h

theorem popVisit_frontierInv {st : CrawlState} {cur : Str} {rest : List Str}
    (h : FrontierInv st) (hq : st.queue = cur :: rest) (hv : cur ∉ st.visited) :
    FrontierInv
      ({ st with
          queue := rest
          visited := st.visited ++ [cur]
          processed := st.processed ++ [cur] }) := by
  have hnd : (cur :: rest).Nodup := hq ▸ h.queueNodup
  refine ⟨?_, ?_, ?_, ?_, ?_, ?_⟩
  · exact (List.nodup_cons.1 hnd).2
  · exact nodup_append_singleton h.visitedNodup hv
  · show st.processed ++ [cur] = st.visited ++ [cur]
    rw [h.processedEq]
  · intro a ha hmem
    have haq : a ∈ st.queue := hq ▸ List.mem_cons_of_mem cur ha
    rcases List.mem_append.1 hmem with hc | hc
    · exact h.queueFresh a haq hc
    · rw [List.mem_singleton] at hc
      subst hc
      exact (List.nodup_cons.1 hnd).1 ha
  · exact h.logNodup
  · intro a ha
    rcases h.logCover a ha with hc | hc
    · rw [hq] at hc
      rcases List.mem_cons.1 hc with hd | hd
      · subst hd
        exact Or.inr (List.mem_append.2 (Or.inr (List.mem_singleton.2 rfl)))
      · exact Or.inl hd
    · exact Or.inr (List.mem_append.2 (Or.inl hc))

theorem stepTail_frontierInv (E : SiteEnv) (recs : List Record) (soup : Node) (cur : Str)
    (st : CrawlState) (h : FrontierInv st) :
    FrontierInv
      ((if recs ≠ [] ∧ ¬E.limit = 0 ∧ E.limit - (st.allRecords.length : Int) ≤ 0 then
          (st, false)
        else
          (pagPhase (pageNextLinks soup cur)
            (catsPhase (discover_category_links soup cur E.cfg)
              (recsPhase E.limit recs st)), true)).1) := by
  split
  · exact h
  · exact pagPhase_frontierInv _ _
      (catsPhase_frontierInv _ _ (recsPhase_frontierInv _ _ _ h))

set_option maxHeartbeats 2000000 in
theorem crawlStep_frontierInv (E : SiteEnv) (st : CrawlState) (h : FrontierInv st) :
    FrontierInv (crawlStep E st).1 := by
  unfold crawlStep
  split
  · exact h
  · rename_i cur rest heq
    split
    · next hv =>
      refine ⟨?_, h.visitedNodup, ?_, ?_, h.logNodup, ?_⟩
      · exact (List.nodup_cons.1 (heq ▸ h.queueNodup)).2
      · exact h.processedEq
      · intro a ha
        exact h.queueFresh a (heq ▸ List.mem_cons_of_mem cur ha)
      · intro a ha
        rcases h.logCover a ha with hc | hc
        · rw [heq] at hc
          rcases List.mem_cons.1 hc with hd | hd
          · subst hd
            exact Or.inr hv
          · exact Or.inl hd
        · exact Or.inr hc
    · next hv =>
      dsimp only []
      split
      · exact popVisit_frontierInv h heq hv
      · rename_i soup heq2
        exact stepTail_frontierInv E _ soup cur
          ({ st with
              queue := rest
              visited := st.visited ++ [cur]
              processed := st.processed ++ [cur] })
          (popVisit_frontierInv h heq hv)

theorem crawlLoop_frontierInv (E : SiteEnv) (fuel : Nat) (st : CrawlState)
    (h : FrontierInv st) : FrontierInv (crawlLoop E fuel st) := by
  induction fuel generalizing st with
  | zero => exact h
  | succ fuel ih =>
    rw [crawlLoop]
    split
    · rcases hs : crawlStep E st with ⟨st2, b⟩
      have h2 : FrontierInv st2 := by
        have hh := crawlStep_frontierInv E st h
        rw [hs] at hh
        exact hh
      cases b
      · exact h2
      · exact ih st2 h2
    · exact h

theorem initFold_frontierInv (l : List Str) (st : CrawlState)
    (h : FrontierInv st) (hv : st.visited = []) :
    FrontierInv (l.foldl (fun st u => if u ∈ st.queue then st else enq st u) st) ∧
      (l.foldl (fun st u => if u ∈ st.queue then st else enq st u) st).visited = [] := by
  induction l generalizing st with
  | nil => exact ⟨h, hv⟩
  | cons a l ih =>
    rw [List.foldl_cons]
    apply ih
    · split
      · exact h
      · next hc => exact h.enq hc (by rw [hv]; exact List.not_mem_nil a)
    · split <;> exact hv

theorem initState_frontierInv (E : SiteEnv) :
    FrontierInv (initState E) ∧ (initState E).visited = [] := by
  unfold initState
  dsimp only []
  have base : FrontierInv
      (⟨[E.site_url], [], [], [], [], [E.site_url],
        ((overrideFor E.cfg (E.domainOf E.site_url)).per_site_pages).getD E.cfg.per_site_pages⟩ :
        CrawlState) := by
    refine ⟨List.nodup_singleton _, List.nodup_nil, rfl, ?_, List.nodup_singleton _, ?_⟩
    · intro a _ hc
      exact List.not_mem_nil a hc
    · intro a ha
      exact Or.inl ha
  have hseeds := initFold_frontierInv
    (((overrideFor E.cfg (E.domainOf E.site_url)).seeds.take 10).map (urljoin E.site_url))
    (⟨[E.site_url], [], [], [], [], [E.site_url],
        ((overrideFor E.cfg (E.domainOf E.site_url)).per_site_pages).getD E.cfg.per_site_pages⟩ :
        CrawlState) base rfl
  rw [List.foldl_map] at hseeds
  exact initFold_frontierInv _ _ hseeds.1 hseeds.2

/-- C5: within one site's crawl, a URL already in the visited set is never
re-visited (the processed trace has no duplicates) and never re-enqueued (the
enqueue trace has no duplicates), and the pending queue stays disjoint from
the visited set; in particular a `rel=next` link to an already-visited URL
causes no duplicate enqueue. -/
theorem c5_no_revisit_no_reenqueue (E : SiteEnv) (fuel : Nat) :
    (scrapeRun E fuel).processed.Nodup ∧
    (scrapeRun E fuel).enqueueLog.Nodup ∧
    List.Disjoint (scrapeRun E fuel).queue (scrapeRun E fuel).visited := by
  have h : FrontierInv (scrapeRun E fuel) :=
    crawlLoop_frontierInv E fuel (initState E) (initState_frontierInv E).1
  refine ⟨?_, h.logNodup, ?_⟩
  · rw [h.processedEq]
    exact h.visitedNodup
  · intro a ha hb
    exact h.queueFresh a ha hb

/-! ## C3: idempotence of `canon_url`.

`canon_url` is not idempotent on all strings (counterexample: the empty
string).  The amended claim proves idempotence for ASCII inputs that carry a
scheme and contain no square brackets and no semicolons. -/

/-- The characters that must not occur in a netloc/path for the reparse of a
canonical URL to retrace the first parse. -/
def goodTail (c : Char) : Prop :=
  c ≠ '?' ∧ c ≠ '#' ∧ c ≠ ';' ∧ c ≠ '[' ∧ c ≠ ']' ∧ c ≠ '\t' ∧ c ≠ '\x0d' ∧ c ≠ '\n'

theorem char_toNat_ofNat_valid {n : Nat} (h : n.isValidChar) :
    (Char.ofNat n).toNat = n := by
  unfold Char.ofNat
  rw [dif_pos h]
  rfl

theorem lowerChar_toNat_of_upper {c : Char} (h : 65 ≤ c.toNat ∧ c.toNat ≤ 90) :
    (lowerChar c).toNat = c.toNat + 32 := by
  unfold lowerChar
  rw [if_pos h]
  exact char_toNat_ofNat_valid (Or.inl (by omega))

theorem lowerChar_eq_of_not_upper {c : Char} (h : ¬(65 ≤ c.toNat ∧ c.toNat ≤ 90)) :
    lowerChar c = c := by
  unfold lowerChar
  rw [if_neg h]

theorem lowerChar_idem (c : Char) : lowerChar (lowerChar c) = lowerChar c := by
  by_cases h : 65 ≤ c.toNat ∧ c.toNat ≤ 90
  · have ht := lowerChar_toNat_of_upper h
    exact lowerChar_eq_of_not_upper (by omega)
  · rw [lowerChar_eq_of_not_upper h, lowerChar_eq_of_not_upper h]

theorem pyLower_pyLower (s : Str) : pyLower (pyLower s) = pyLower s := by
  unfold pyLower
  rw [List.map_map]
  exact List.map_congr_left (fun c _ => lowerChar_idem c)

theorem char_le_toNat {a b : Char} : a ≤ b ↔ a.toNat ≤ b.toNat := Char.le_def

theorem schemeChar_lowerChar {c : Char} (h : schemeChar c = true) :
    schemeChar (lowerChar c) = true := by
  by_cases hu : 65 ≤ c.toNat ∧ c.toNat ≤ 90
  · have ht := lowerChar_toNat_of_upper hu
    unfold schemeChar
    rw [decide_eq_true_eq]
    refine Or.inl ⟨char_le_toNat.2 ?_, char_le_toNat.2 ?_⟩
    · show 97 ≤ (lowerChar c).toNat
      omega
    · show (lowerChar c).toNat ≤ 122
      omega
  · rw [lowerChar_eq_of_not_upper hu]
    exact h

theorem asciiAlphaChar_lowerChar {c : Char} (h : asciiAlphaChar c = true) :
    asciiAlphaChar (lowerChar c) = true := by
  by_cases hu : 65 ≤ c.toNat ∧ c.toNat ≤ 90
  · have ht := lowerChar_toNat_of_upper hu
    unfold asciiAlphaChar
    rw [decide_eq_true_eq]
    refine Or.inl ⟨char_le_toNat.2 ?_, char_le_toNat.2 ?_⟩
    · show 97 ≤ (lowerChar c).toNat
      omega
    · show (lowerChar c).toNat ≤ 122
      omega
  · rw [lowerChar_eq_of_not_upper hu]
    exact h

theorem schemeChar_ne {c : Char} (h : schemeChar c = true) :
    c ≠ ':' ∧ c ≠ '/' ∧ c ≠ '\t' ∧ c ≠ '\x0d' ∧ c ≠ '\n' := by
  refine ⟨?_, ?_, ?_, ?_, ?_⟩ <;> intro hc <;> subst hc <;> exact absurd h (by decide)

theorem asciiAlphaChar_not_c0 {c : Char} (h : asciiAlphaChar c = true) :
    ¬(c.toNat ≤ 32) := by
  unfold asciiAlphaChar at h
  rw [decide_eq_true_eq] at h
  rcases h with ⟨h1, _⟩ | ⟨h1, _⟩
  · have h2 : 97 ≤ c.toNat := Char.le_def.1 h1
    intro hc
    omega
  · have h2 : 65 ≤ c.toNat := Char.le_def.1 h1
    intro hc
    omega

theorem takeWhile_eq_self_of_all {p : Char → Bool} {l : Str}
    (h : ∀ a ∈ l, p a = true) : l.takeWhile p = l := by
  induction l with
  | nil => rfl
  | cons a l ih =>
    rw [List.takeWhile_cons, if_pos (h a (List.mem_cons_self a l))]
    rw [ih (fun b hb => h b (List.mem_cons_of_mem a hb))]

theorem dropWhile_eq_nil_of_all {p : Char → Bool} {l : Str}
    (h : ∀ a ∈ l, p a = true) : l.dropWhile p = [] := by
  induction l with
  | nil => rfl
  | cons a l ih =>
    rw [List.dropWhile_cons, if_pos (h a (List.mem_cons_self a l))]
    exact ih (fun b hb => h b (List.mem_cons_of_mem a hb))

theorem takeWhile_append_cons {p : Char → Bool} {l₁ : Str} {x : Char} (l₂ : Str)
    (h : ∀ a ∈ l₁, p a = true) (hx : p x = false) :
    (l₁ ++ x :: l₂).takeWhile p = l₁ := by
  induction l₁ with
  | nil => simp [List.takeWhile_cons, hx]
  | cons a l ih =>
    rw [List.cons_append, List.takeWhile_cons, if_pos (h a (List.mem_cons_self a l))]
    rw [ih (fun b hb => h b (List.mem_cons_of_mem a hb))]

theorem drop_append_cons {l₁ : Str} {x : Char} (l₂ : Str) :
    (l₁ ++ x :: l₂).drop (l₁.length + 1) = l₂ := by
  induction l₁ with
  | nil => rfl
  | cons a l ih => simp only [List.cons_append, List.length_cons, List.drop_succ_cons]; exact ih

theorem mem_rstripSlash {a : Char} {l : Str} (h : a ∈ rstripSlash l) : a ∈ l := by
  unfold rstripSlash at h
  rw [List.mem_reverse] at h
  have h2 : a ∈ l.reverse := (List.dropWhile_sublist _).subset h
  exact List.mem_reverse.1 h2

theorem dropWhile_idem (p : Char → Bool) (l : Str) :
    (l.dropWhile p).dropWhile p = l.dropWhile p := by
  induction l with
  | nil => rfl
  | cons a l ih =>
    rw [List.dropWhile_cons]
    split
    · exact ih
    · next hpa => rw [List.dropWhile_cons, if_neg hpa]

theorem rstripSlash_idem (l : Str) : rstripSlash (rstripSlash l) = rstripSlash l := by
  unfold rstripSlash
  rw [List.reverse_reverse, dropWhile_idem]

theorem rstrip_append (a b : Str) :
    rstripSlash (a ++ b) =
      if rstripSlash b = [] then rstripSlash a else a ++ rstripSlash b := by
  unfold rstripSlash
  rw [List.reverse_append, List.dropWhile_append]
  split
  · next he =>
    rw [List.isEmpty_iff] at he
    rw [if_pos (by rw [he]; rfl)]
  · next he =>
    rw [List.isEmpty_iff] at he
    rw [if_neg (fun hc => he (List.reverse_eq_nil_iff.1 hc))]
    rw [List.reverse_append, List.reverse_reverse]

/-- The facts about a parsed scheme that make `canon_url`'s output re-parse
to itself. -/
def schemeGood (s : Str) : Prop :=
  s ≠ [] ∧ (∀ c ∈ s, schemeChar c = true) ∧ pyLower s = s ∧ headAsciiAlpha s = true

theorem schemeGood_stage {s r : Str} (hs : schemeGood s)
    (hr : ∀ c ∈ r, c ≠ '\t' ∧ c ≠ '\x0d' ∧ c ≠ '\n') :
    removeUnsafe (lstripC0 (s ++ ':' :: r)) = s ++ ':' :: r ∧
    schemeSplit [] (s ++ ':' :: r) = (s, r) := by
  obtain ⟨hne, hsc, hsl, hsh⟩ := hs
  have hstrip : lstripC0 (s ++ ':' :: r) = s ++ ':' :: r := by
    cases s with
    | nil => exact absurd rfl hne
    | cons c s2 =>
      have hca : asciiAlphaChar c = true := hsh
      unfold lstripC0
      rw [List.cons_append, List.dropWhile_cons,
        if_neg (by rw [decide_eq_true_eq]; exact asciiAlphaChar_not_c0 hca)]
  have hclean : removeUnsafe (s ++ ':' :: r) = s ++ ':' :: r := by
    unfold removeUnsafe
    refine List.filter_eq_self.2 ?_
    intro a ha
    rw [decide_eq_true_eq]
    rcases List.mem_append.1 ha with hc | hc
    · have := schemeChar_ne (hsc a hc)
      rintro (h | h | h) <;> subst h
      · exact this.2.2.1 rfl
      · exact this.2.2.2.1 rfl
      · exact this.2.2.2.2 rfl
    · rcases List.mem_cons.1 hc with hd | hd
      · subst hd
        rintro (h | h | h) <;> exact absurd h (by decide)
      · have := hr a hd
        rintro (h | h | h) <;> subst h
        · exact this.1 rfl
        · exact this.2.1 rfl
        · exact this.2.2 rfl
  constructor
  · rw [hstrip, hclean]
  · unfold schemeSplit
    have hpre : (s ++ ':' :: r).takeWhile (fun c => decide (c ≠ ':')) = s := by
      refine takeWhile_append_cons r ?_ (by decide)
      intro a ha
      rw [decide_eq_true_eq]
      exact (schemeChar_ne (hsc a ha)).1
    rw [hpre]
    rw [if_pos ?_]
    · rw [hsl, drop_append_cons]
    · refine ⟨?_, hne, ?_, ?_⟩
      · rw [List.length_append, List.length_cons]
        omega
      · cases s with
        | nil => exact absurd rfl hne
        | cons c s2 => exact hsh
      · rw [List.all_eq_true]
        exact hsc

theorem mem_takeWhile_pred {p : Char → Bool} {l : Str} {a : Char}
    (h : a ∈ l.takeWhile p) : p a = true := by
  induction l with
  | nil => cases h
  | cons b l ih =>
    rw [List.takeWhile_cons] at h
    by_cases hb : p b = true
    · rw [if_pos hb] at h
      rcases List.mem_cons.1 h with rfl | h
      · exact hb
      · exact ih h
    · rw [if_neg hb] at h
      cases h

theorem mem_clean {c : Char} {u : Str} (h : c ∈ removeUnsafe (lstripC0 u)) :
    c ∈ u ∧ c ≠ '\t' ∧ c ≠ '\x0d' ∧ c ≠ '\n' := by
  unfold removeUnsafe at h
  obtain ⟨h1, h2⟩ := List.mem_filter.1 h
  unfold lstripC0 at h1
  have h3 : c ∈ u := (List.dropWhile_sublist _).subset h1
  have h4 := of_decide_eq_true h2
  exact ⟨h3, fun e => h4 (Or.inl e), fun e => h4 (Or.inr (Or.inl e)),
    fun e => h4 (Or.inr (Or.inr e))⟩

theorem urlsplit_netloc_compute (s t : Str) (hs : schemeGood s)
    (ht : ∀ c ∈ t, goodTail c) :
    urlsplitE [] (s ++ ':' :: '/' :: '/' :: t) =
      .ok ⟨s, t.takeWhile notNetlocDelim, t.dropWhile notNetlocDelim, [], [], []⟩ := by
  have hr : ∀ c ∈ ('/' :: '/' :: t), c ≠ '\t' ∧ c ≠ '\x0d' ∧ c ≠ '\n' := by
    intro c hc
    rcases List.mem_cons.1 hc with rfl | hc
    · exact ⟨by decide, by decide, by decide⟩
    rcases List.mem_cons.1 hc with rfl | hc
    · exact ⟨by decide, by decide, by decide⟩
    exact ⟨(ht c hc).2.2.2.2.2.1, (ht c hc).2.2.2.2.2.2.1, (ht c hc).2.2.2.2.2.2.2⟩
  obtain ⟨h1, h2⟩ := schemeGood_stage hs hr
  unfold urlsplitE
  rw [h1]
  dsimp only []
  rw [h2]
  dsimp only []
  have hhn : strAtStart ['/', '/'] ('/' :: '/' :: t) = true := rfl
  rw [if_pos hhn, if_pos hhn]
  rw [show ('/' :: '/' :: t).drop 2 = t from rfl]
  have hbr : ¬('[' ∈ t.takeWhile notNetlocDelim ∨ ']' ∈ t.takeWhile notNetlocDelim) := by
    rintro (hc | hc)
    · exact (ht _ ((List.takeWhile_sublist _).subset hc)).2.2.2.1 rfl
    · exact (ht _ ((List.takeWhile_sublist _).subset hc)).2.2.2.2.1 rfl
  rw [if_neg hbr]
  have hall : ∀ a ∈ t.dropWhile notNetlocDelim, a ∈ t :=
    fun a ha => (List.dropWhile_sublist _).subset ha
  have hcut1 : cutAt '#' (t.dropWhile notNetlocDelim) = (t.dropWhile notNetlocDelim, []) := by
    unfold cutAt
    rw [takeWhile_eq_self_of_all (fun a ha => decide_eq_true (ht a (hall a ha)).2.1),
      dropWhile_eq_nil_of_all (fun a ha => decide_eq_true (ht a (hall a ha)).2.1)]
    rfl
  rw [hcut1]
  dsimp only []
  have hcut2 : cutAt '?' (t.dropWhile notNetlocDelim) = (t.dropWhile notNetlocDelim, []) := by
    unfold cutAt
    rw [takeWhile_eq_self_of_all (fun a ha => decide_eq_true (ht a (hall a ha)).1),
      dropWhile_eq_nil_of_all (fun a ha => decide_eq_true (ht a (hall a ha)).1)]
    rfl
  rw [hcut2]

theorem urlsplit_bare_compute (s : Str) (hs : schemeGood s) :
    urlsplitE [] (s ++ [':']) = .ok ⟨s, [], [], [], [], []⟩ := by
  have hr : ∀ c ∈ ([] : Str), c ≠ '\t' ∧ c ≠ '\x0d' ∧ c ≠ '\n' :=
    fun c hc => absurd hc (List.not_mem_nil c)
  obtain ⟨h1, h2⟩ := schemeGood_stage hs hr
  unfold urlsplitE
  rw [h1]
  dsimp only []
  rw [h2]
  rfl

theorem urlparse_netloc_compute (s t : Str) (hs : schemeGood s)
    (ht : ∀ c ∈ t, goodTail c) :
    urlparseE [] (s ++ ':' :: '/' :: '/' :: t) =
      .ok ⟨s, t.takeWhile notNetlocDelim, t.dropWhile notNetlocDelim, [], [], []⟩ := by
  unfold urlparseE
  rw [urlsplit_netloc_compute s t hs ht]
  dsimp only []
  rw [if_neg (fun hc =>
    (ht _ ((List.dropWhile_sublist _).subset hc.2)).2.2.1 rfl)]

theorem urlparse_bare_compute (s : Str) (hs : schemeGood s) :
    urlparseE [] (s ++ [':']) = .ok ⟨s, [], [], [], [], []⟩ := by
  unfold urlparseE
  rw [urlsplit_bare_compute s hs]
  dsimp only []
  rw [if_neg (fun hc => absurd hc.2 (List.not_mem_nil _))]

theorem canon_fixed (s w : Str) (hs : schemeGood s) (hw : ∀ c ∈ w, goodTail c) :
    canon_url (rstripSlash ((s ++ [':', '/', '/']) ++ w)) =
      rstripSlash ((s ++ [':', '/', '/']) ++ w) := by
  rw [rstrip_append (s ++ [':', '/', '/']) w]
  by_cases hempty : rstripSlash w = []
  · rw [if_pos hempty]
    have h1 : rstripSlash (s ++ [':', '/', '/']) = s ++ [':'] := by
      rw [rstrip_append s [':', '/', '/'], if_neg (by decide)]
      rfl
    rw [h1]
    unfold canon_url
    rw [urlparse_bare_compute s hs]
    dsimp only []
    rw [List.append_nil, List.append_nil]
    rw [rstrip_append s [':', '/', '/'], if_neg (by decide)]
    rfl
  · rw [if_neg hempty]
    have hsub : ∀ c ∈ rstripSlash w, goodTail c := fun c hc => hw c (mem_rstripSlash hc)
    have hassoc : (s ++ [':', '/', '/']) ++ rstripSlash w =
        s ++ ':' :: '/' :: '/' :: rstripSlash w := by
      rw [List.append_assoc]
      rfl
    rw [hassoc]
    unfold canon_url
    rw [urlparse_netloc_compute s (rstripSlash w) hs hsub]
    dsimp only []
    rw [List.append_assoc (s ++ [':', '/', '/'])]
    rw [List.takeWhile_append_dropWhile]
    rw [rstrip_append (s ++ [':', '/', '/']) (rstripSlash w), rstripSlash_idem w,
      if_neg hempty]
    exact hassoc

theorem cutAt_fst (ch : Char) (s : Str) :
    (cutAt ch s).1 = s.takeWhile (fun c => decide (c ≠ ch)) := rfl

theorem schemeSplit_inv (u1 sc u2 : Str)
    (hss : schemeSplit [] u1 = (sc, u2)) (hsc : sc ≠ []) :
    schemeGood sc ∧ (∀ c ∈ u2, c ∈ u1) := by
  unfold schemeSplit at hss
  dsimp only [] at hss
  split at hss
  case isTrue hcond =>
    obtain ⟨hlt, hprene, hhead, hall⟩ := hcond
    injection hss with f1 f2
    subst f1
    constructor
    · refine ⟨?_, ?_, pyLower_pyLower _, ?_⟩
      · intro he
        exact hprene (List.map_eq_nil_iff.1 he)
      · intro c hc
        obtain ⟨c0, hc0, rfl⟩ := List.mem_map.1 hc
        exact schemeChar_lowerChar (List.all_eq_true.1 hall c0 hc0)
      · cases u1 with
        | nil => exact absurd rfl hprene
        | cons d rest =>
          by_cases hd : (fun c => decide (c ≠ ':')) d = true
          · rw [List.takeWhile_cons, if_pos hd]
            exact asciiAlphaChar_lowerChar hhead
          · exfalso
            apply hprene
            rw [List.takeWhile_cons, if_neg hd]
    · intro c hc
      rw [← f2] at hc
      exact List.drop_subset _ _ hc
  case isFalse hcond =>
    injection hss with f1 f2
    exact absurd f1.symm hsc

theorem urlsplitE_inv (u : Str) (Q : UrlParts)
    (h : urlsplitE [] u = .ok Q) (hq : Q.scheme ≠ []) :
    schemeGood Q.scheme ∧ Q.params = [] ∧
    (∀ c ∈ Q.netloc, notNetlocDelim c = true ∧ c ∈ u ∧ c ≠ '\t' ∧ c ≠ '\x0d' ∧ c ≠ '\n') ∧
    (∀ c ∈ Q.path, c ≠ '#' ∧ c ≠ '?' ∧ c ∈ u ∧ c ≠ '\t' ∧ c ≠ '\x0d' ∧ c ≠ '\n') := by
  obtain ⟨qs, qn, qp, qpar, qq, qf⟩ := Q
  dsimp only [] at hq ⊢
  unfold urlsplitE at h
  dsimp only [] at h
  cases hss : schemeSplit [] (removeUnsafe (lstripC0 u)) with
  | mk sc u2 =>
  rw [hss] at h
  dsimp only [] at h
  rw [cutAt_fst, cutAt_fst] at h
  by_cases hnet : strAtStart ['/', '/'] u2 = true
  · rw [if_pos hnet, if_pos hnet] at h
    split at h
    · exact Except.noConfusion h
    next hbr =>
      injection h with h
      injection h with e1 e2 e3 e4 e5 e6
      subst e1
      subst e2
      subst e3
      subst e4
      obtain ⟨hSG, hsub2⟩ := schemeSplit_inv _ _ _ hss hq
      have hprov : ∀ c ∈ u2, c ∈ u ∧ c ≠ '\t' ∧ c ≠ '\x0d' ∧ c ≠ '\n' :=
        fun c hc => mem_clean (hsub2 c hc)
      refine ⟨hSG, rfl, ?_, ?_⟩
      · intro c hc
        have hp := mem_takeWhile_pred hc
        have hin : c ∈ u2 :=
          List.drop_subset _ _ ((List.takeWhile_sublist _).subset hc)
        obtain ⟨hu, h1, h2, h3⟩ := hprov c hin
        exact ⟨hp, hu, h1, h2, h3⟩
      · intro c hc
        have hq2 := of_decide_eq_true (mem_takeWhile_pred hc)
        have hc2 := (List.takeWhile_sublist _).subset hc
        have hh2 := of_decide_eq_true (mem_takeWhile_pred hc2)
        have hc3 := (List.takeWhile_sublist _).subset hc2
        have hin : c ∈ u2 :=
          List.drop_subset _ _ ((List.dropWhile_sublist _).subset hc3)
        obtain ⟨hu, h1, h2, h3⟩ := hprov c hin
        exact ⟨hh2, hq2, hu, h1, h2, h3⟩
  · rw [if_neg hnet, if_neg hnet] at h
    rw [if_neg (fun hc => by
      rcases hc with hb | hb <;> exact absurd hb (List.not_mem_nil _))] at h
    injection h with h
    injection h with e1 e2 e3 e4 e5 e6
    subst e1
    subst e2
    subst e3
    subst e4
    obtain ⟨hSG, hsub2⟩ := schemeSplit_inv _ _ _ hss hq
    have hprov : ∀ c ∈ u2, c ∈ u ∧ c ≠ '\t' ∧ c ≠ '\x0d' ∧ c ≠ '\n' :=
      fun c hc => mem_clean (hsub2 c hc)
    refine ⟨hSG, rfl, ?_, ?_⟩
    · intro c hc
      exact absurd hc (List.not_mem_nil c)
    · intro c hc
      have hq2 := of_decide_eq_true (mem_takeWhile_pred hc)
      have hc2 := (List.takeWhile_sublist _).subset hc
      have hh2 := of_decide_eq_true (mem_takeWhile_pred hc2)
      have hin : c ∈ u2 := (List.takeWhile_sublist _).subset hc2
      obtain ⟨hu, h1, h2, h3⟩ := hprov c hin
      exact ⟨hh2, hq2, hu, h1, h2, h3⟩

theorem urlparseE_inv (u : Str) (P : UrlParts)
    (h : urlparseE [] u = .ok P) (hp : P.scheme ≠ []) (hsemi : ';' ∉ u) :
    schemeGood P.scheme ∧
    (∀ c ∈ P.netloc, notNetlocDelim c = true ∧ c ∈ u ∧ c ≠ '\t' ∧ c ≠ '\x0d' ∧ c ≠ '\n') ∧
    (∀ c ∈ P.path, c ≠ '#' ∧ c ≠ '?' ∧ c ∈ u ∧ c ≠ '\t' ∧ c ≠ '\x0d' ∧ c ≠ '\n') := by
  unfold urlparseE at h
  cases hsp : urlsplitE [] u with
  | error e => rw [hsp] at h; exact Except.noConfusion h
  | ok Q =>
    rw [hsp] at h
    dsimp only [] at h
    split at h
    · next hcond =>
      exfalso
      have hqs : Q.scheme ≠ [] := by
        intro he
        apply hp
        injection h with h
        rw [← h]
        exact he
      obtain ⟨-, -, -, hpath⟩ := urlsplitE_inv u Q hsp hqs
      exact hsemi (hpath ';' hcond.2).2.2.1
    · injection h with h
      subst h
      obtain ⟨h1, -, h3, h4⟩ := urlsplitE_inv u Q hsp hp
      exact ⟨h1, h3, h4⟩

/-- C3: the spec says `canon_url` is idempotent on every string; the code is
not (`canon_url "" = ":"` but `canon_url ":" = "://:"`, see the
counterexample below).  Corrected statement: `canon_url` is idempotent on
every ASCII input that parses with a nonempty scheme and contains no square
bracket and no semicolon. -/
theorem c3_canon_url_idempotent (u : Str) (P : UrlParts)
    (hok : urlparseE [] u = .ok P) (hsch : P.scheme ≠ [])
    (_hascii : ∀ c ∈ u, c.toNat ≤ 127)
    (hlb : '[' ∉ u) (hrb : ']' ∉ u) (hsemi : ';' ∉ u) :
    canon_url (canon_url u) = canon_url u := by
  obtain ⟨hS, hN, hP⟩ := urlparseE_inv u P hok hsch hsemi
  have hcan : canon_url u =
      rstripSlash ((P.scheme ++ [':', '/', '/']) ++ (P.netloc ++ P.path)) := by
    unfold canon_url
    rw [hok]
    dsimp only []
    rw [List.append_assoc (P.scheme ++ [':', '/', '/'])]
  rw [hcan]
  refine canon_fixed P.scheme (P.netloc ++ P.path) hS ?_
  intro c hc
  rcases List.mem_append.1 hc with hc | hc
  · obtain ⟨hd, hmu, ht1, ht2, ht3⟩ := hN c hc
    have hnd := of_decide_eq_true hd
    exact ⟨fun e => hnd (Or.inr (Or.inl e)), fun e => hnd (Or.inr (Or.inr e)),
      fun e => absurd (e ▸ hmu) hsemi, fun e => absurd (e ▸ hmu) hlb,
      fun e => absurd (e ▸ hmu) hrb, ht1, ht2, ht3⟩
  · obtain ⟨hh, hq2, hmu, ht1, ht2, ht3⟩ := hP c hc
    exact ⟨hq2, hh, fun e => absurd (e ▸ hmu) hsemi, fun e => absurd (e ▸ hmu) hlb,
      fun e => absurd (e ▸ hmu) hrb, ht1, ht2, ht3⟩

/-- The empty string refutes the claim as stated: `canon_url ""` is `":"`,
which `canon_url` maps to `"://:"`. -/
theorem c3_counterexample : canon_url (canon_url []) ≠ canon_url [] := by
  decide

theorem c3_witness :
    canon_url (canon_url "http://Example.com/a/".data) =
      canon_url "http://Example.com/a/".data :=
  c3_canon_url_idempotent "http://Example.com/a/".data
    ⟨"http".data, "Example.com".data, "/a/".data, [], [], []⟩
    rfl (by decide) (by decide) (by decide) (by decide) (by decide)
